import Mathlib

/-!
EthBlockchainParser: the subscription-and-scan engine of `parser.go`.

A shallow embedding of `Parser` (`NewParser`, `GetCurrentBlock`, `Subscribe`,
`GetTransactions`) and the properties of it that the design document states.

Modelling conventions.

* `*big.Int` is `Int`; a nil `*big.Int` is `none`.
* `uint64` is a `Nat`; the conversion `int64(x)` is `wrapInt64`, the two's complement
  reinterpretation, and `blockI--` on an `int64` wraps the same way (Go defines signed
  overflow as wrap-around).  `int` is taken to be 64 bits wide, so `int(x)` of an
  `int64` is `x`.  `big.Int.Int64` is the identity on the `int64` range, where every
  watermark the program stores lies (`Parser.WF`); outside it the model wraps.
* `map[string]bool` is an association list with at most one entry per key;
  `_, ok := m[k]` is `mapHas`, the one-valued read `m[k]` is `mapGet` (the zero value
  `false` for a missing key) and `m[k] = v` is `mapSet`.
* The `ethclient.Client` is the record `Client` of the two answers the parser asks of
  it during one call.  Each call of `GetTransactions` is given the client's answers for
  that call, so a sequence of calls may see a different ledger every time.
* `common.Address.Hex` belongs to go-ethereum, not to this repository: it is the
  parameter `hex` of every definition that renders an address.
* The outer `for` loop of `GetTransactions` runs on fuel, one unit per evaluation of its
  condition: `none` means that the fuel ran out before the loop condition became false.
* Console and log output is not modelled.
-/

namespace EthParser

/-! ## Data model -/

deriving instance DecidableEq for Except

/-- The type `common.Address` (a `[20]byte`), as the number its bytes encode. -/
structure Address where
  raw : Nat
deriving DecidableEq, Repr

/-- The type `common.Hash` (a `[32]byte`), as the number its bytes encode. -/
structure Hash where
  raw : Nat
deriving DecidableEq, Repr

/-- The struct `Transaction` of `parser.go`. -/
structure Transaction where
  From : Address
  To : Address
  Value : Int
  Hash : Hash
  BlockNumber : Int
deriving DecidableEq, Repr

/-- What `GetTransactions` reads of a `*types.Transaction`: the outcome of
`types.LatestSignerForChainID(tx.ChainId()).Sender(tx)`, and `tx.To()` (nil for a
contract creation), `tx.Value()`, `tx.Hash()`. -/
structure Tx where
  Sender : Except String Address
  To : Option Address
  Value : Int
  Hash : Hash
deriving DecidableEq

/-- What `GetTransactions` reads of a `*types.Block`: `block.Transactions()`. -/
structure Block where
  Transactions : List Tx
deriving DecidableEq

/-- The answers of the `ethclient.Client` during one call: `BlockNumber` (a `uint64` or
an error) and `BlockByNumber` at each requested height (a block or an error). -/
structure Client where
  BlockNumber : Except String Nat
  BlockByNumber : Int → Except String Block

/-- The struct `Parser` without its `client` field, which is passed to each call. -/
structure Parser where
  currentBlock : Option Int
  observers : List (String × Bool)
deriving DecidableEq, Repr

/-! ## Machine integers -/

/-- The least `int64`. -/
def minInt64 : Int := -(2 ^ 63)

/-- The greatest `int64`. -/
def maxInt64 : Int := 2 ^ 63 - 1

/-- Reduction of an integer to the `int64` with the same low 64 bits. -/
def wrapInt64 (x : Int) : Int := (x + 2 ^ 63) % 2 ^ 64 - 2 ^ 63

/-- The conversion `int64(x)` of a `uint64`. -/
def int64OfUint64 (x : Nat) : Int := wrapInt64 ((x % 2 ^ 64 : Nat) : Int)

/-! ## Go maps -/

/-- The test `_, ok := m[k]`. -/
def mapHas (m : List (String × Bool)) (k : String) : Bool := (m.lookup k).isSome

/-- The read `m[k]`, `false` when `k` is missing. -/
def mapGet (m : List (String × Bool)) (k : String) : Bool := (m.lookup k).getD false

/-- The assignment `m[k] = v`. -/
def mapSet : List (String × Bool) → String → Bool → List (String × Bool)
  | [], k, v => [(k, v)]
  | (k', v') :: rest, k, v =>
    if k' = k then (k, v) :: rest else (k', v') :: mapSet rest k v

/-! ## The parser -/

/-- The parser `NewParser` returns when the dial succeeds. -/
def NewParser : Parser := { currentBlock := none, observers := [] }

/-- `Parser.GetCurrentBlock`. -/
def GetCurrentBlock (p : Parser) : Int :=
  match p.currentBlock with
  | none => -1
  | some b => wrapInt64 b

/-- `Parser.Subscribe`: the returned flag and the parser afterwards. -/
def Subscribe (p : Parser) (address : String) : Bool × Parser :=
  if !mapHas p.observers address then
    (true, { p with observers := mapSet p.observers address true })
  else
    (false, p)

/-- The value of `p.currentBlock` after the statement
`if p.currentBlock == nil || p.currentBlock.Cmp(bigIntBlockNumber) < 0 { ... }`. -/
def updateCurrentBlock (currentBlock : Option Int) (bigIntBlockNumber : Int) : Int :=
  match currentBlock with
  | none => bigIntBlockNumber
  | some b => if b < bigIntBlockNumber then bigIntBlockNumber else b

/-- The inner loop `for _, tx := range block.Transactions()` of `GetTransactions`,
appending to `transactions`. -/
def scanTransactions (hex : Address → String) (address : String) (blockI : Int) :
    List Tx → List Transaction → List Transaction
  | [], transactions => transactions
  | tx :: rest, transactions =>
    match tx.Sender with
    | .error _ => scanTransactions hex address blockI rest transactions
    | .ok addr =>
      match tx.To with
      | none => scanTransactions hex address blockI rest transactions
      | some receiver =>
        if hex receiver = address ∨ hex addr = address then
          scanTransactions hex address blockI rest
            (transactions ++
              [{ To := receiver, From := addr, Value := tx.Value, Hash := tx.Hash,
                 BlockNumber := blockI }])
        else
          scanTransactions hex address blockI rest transactions

/-- The outer loop
`for blockI := p.currentBlock.Int64(); blockI >= p.currentBlock.Int64(); blockI--`,
entered at its condition with the counter `blockI`.  `currentBlock` is the value of
`p.currentBlock`, which the loop does not change. -/
def scanBlocks (hex : Address → String) (c : Client) (currentBlock : Int)
    (address : String) : Nat → Int → List Transaction → Option (List Transaction)
  | 0, _, _ => none
  | fuel + 1, blockI, transactions =>
    if blockI ≥ wrapInt64 currentBlock then
      match c.BlockByNumber blockI with
      | .error _ =>
        scanBlocks hex c currentBlock address fuel (wrapInt64 (blockI - 1)) transactions
      | .ok block =>
        scanBlocks hex c currentBlock address fuel (wrapInt64 (blockI - 1))
          (scanTransactions hex address blockI block.Transactions transactions)
    else
      some transactions

/-- `Parser.GetTransactions`: the returned slice and the parser afterwards, or `none`
when the fuel does not suffice for the block loop. -/
def GetTransactions (hex : Address → String) (fuel : Nat) (c : Client) (p : Parser)
    (address : String) : Option (List Transaction × Parser) :=
  match c.BlockNumber with
  | .error _ => some ([], p)
  | .ok blockNumber =>
    let bigIntBlockNumber := int64OfUint64 blockNumber
    let currentBlock := updateCurrentBlock p.currentBlock bigIntBlockNumber
    let p1 : Parser := { p with currentBlock := some currentBlock }
    if !mapGet p1.observers address then
      some ([], p1)
    else
      (scanBlocks hex c currentBlock address fuel (wrapInt64 currentBlock) []).map
        (fun transactions => (transactions, p1))

/-! ## Sequences of calls -/

/-- One call on a parser. -/
inductive Op where
  | subscribe (address : String)
  | getTransactions (c : Client) (address : String)
  | getCurrentBlock

/-- The parser after one call (`none` when a `GetTransactions` runs out of fuel). -/
def stepOp (hex : Address → String) (fuel : Nat) (p : Parser) : Op → Option Parser
  | .subscribe address => some (Subscribe p address).2
  | .getTransactions c address => (GetTransactions hex fuel c p address).map (·.2)
  | .getCurrentBlock => some p

/-- The parser after a sequence of calls. -/
def runOps (hex : Address → String) (fuel : Nat) : Parser → List Op → Option Parser
  | p, [] => some p
  | p, op :: ops =>
    match stepOp hex fuel p op with
    | none => none
    | some q => runOps hex fuel q ops

/-! ## Notions of the design document -/

/-- The watermark is "unset" when `p.currentBlock` is nil, and otherwise the stored
integer. -/
def watermark (p : Parser) : Option Int := p.currentBlock

/-- The height a call of `GetTransactions` scans when the tip fetch answers `tip`:
the initial value `p.currentBlock.Int64()` of the loop counter, read after the
watermark update. -/
def scanHeight (p : Parser) (tip : Nat) : Int :=
  wrapInt64 (updateCurrentBlock p.currentBlock (int64OfUint64 tip))

/-- The parser after the watermark update for the answer `tip`. -/
def advance (p : Parser) (tip : Nat) : Parser :=
  { p with currentBlock := some (updateCurrentBlock p.currentBlock (int64OfUint64 tip)) }

/-- The states the program can be in: every stored flag is `true` (the only value
`Subscribe` writes) and the watermark is an `int64` (it is made by `big.NewInt`). -/
def Parser.WF (p : Parser) : Prop :=
  (∀ e ∈ p.observers, e.2 = true) ∧
    (∀ b ∈ p.currentBlock, minInt64 ≤ b ∧ b ≤ maxInt64)

instance (p : Parser) : Decidable p.WF := by
  unfold Parser.WF
  infer_instance

/-- The record of the design's data model for a transaction with sender `s` and
receiver `r` found at `height`. -/
def recordOf (s r : Address) (tx : Tx) (height : Int) : Transaction :=
  { From := s, To := r, Value := tx.Value, Hash := tx.Hash, BlockNumber := height }

/-- The result the design describes for the address `a` and a block at `height`: in
the block's order, the records of the transactions that have a recoverable sender, a
receiver, and whose sender or receiver renders to `a`. -/
def matchedRecords (hex : Address → String) (a : String) (height : Int)
    (txs : List Tx) : List Transaction :=
  txs.filterMap fun tx =>
    match tx.Sender, tx.To with
    | .ok s, some r =>
      if hex s = a ∨ hex r = a then some (recordOf s r tx height) else none
    | _, _ => none

/-- The record `rec` is the one `GetTransactions` builds from a transaction of the block
the ledger has at height `rec.BlockNumber`: a transaction whose recovered sender is
`rec.From`, whose receiver is `rec.To`, and whose value and hash are those of `rec`. -/
def BuiltFrom (c : Client) (rec : Transaction) : Prop :=
  ∃ b tx, c.BlockByNumber rec.BlockNumber = .ok b ∧ tx ∈ b.Transactions ∧
    tx.Sender = .ok rec.From ∧ tx.To = some rec.To ∧ tx.Value = rec.Value ∧
    tx.Hash = rec.Hash

/-- What one pass of the block loop at `height` adds to empty `transactions`. -/
def blockRecords (hex : Address → String) (c : Client) (a : String) (height : Int) :
    List Transaction :=
  match c.BlockByNumber height with
  | .error _ => []
  | .ok b => matchedRecords hex a height b.Transactions

/-- The ledger `c` with the transactions failing `keep` removed from every block. -/
def Client.filterTxs (c : Client) (keep : Tx → Bool) : Client :=
  { c with
    BlockByNumber := fun h =>
      match c.BlockByNumber h with
      | .error e => .error e
      | .ok b => .ok { Transactions := b.Transactions.filter keep } }

/-! ## Concrete data for evaluation -/

/-- A rendering of three addresses, standing in for `common.Address.Hex`. -/
def demoHex (a : Address) : String :=
  if a.raw = 1 then "0xA" else if a.raw = 2 then "0xB" else if a.raw = 3 then "0xC"
  else "0x0"

/-- A ledger whose tip is `tip` and whose only block, at `height`, holds `txs`. -/
def demoClient (tip : Nat) (height : Int) (txs : List Tx) : Client :=
  { BlockNumber := .ok tip
    BlockByNumber := fun h =>
      if h = height then .ok { Transactions := txs } else .error "not found" }

/-- A ledger whose tip fetch fails. -/
def downClient : Client :=
  { BlockNumber := .error "connection refused"
    BlockByNumber := fun _ => .error "connection refused" }

/-- A transfer of `value` from `s` to `r`. -/
def transfer (s r : Nat) (value : Int) (hash : Nat) : Tx :=
  { Sender := .ok ⟨s⟩, To := some ⟨r⟩, Value := value, Hash := ⟨hash⟩ }

/-- A contract creation sent by `s`. -/
def creation (s : Nat) (value : Int) (hash : Nat) : Tx :=
  { Sender := .ok ⟨s⟩, To := none, Value := value, Hash := ⟨hash⟩ }

/-- A transfer to `r` whose sender cannot be recovered. -/
def unsigned (r : Nat) (value : Int) (hash : Nat) : Tx :=
  { Sender := .error "invalid signature", To := some ⟨r⟩, Value := value, Hash := ⟨hash⟩ }

/-- A poll at tip 100, a `Subscribe "0xB"`, a `GetCurrentBlock` and a second poll at the
smaller tip 90. -/
def demoCalls : List Op :=
  [.getTransactions (demoClient 100 100 [transfer 1 2 5 17]) "0xA",
   .subscribe "0xB", .getCurrentBlock,
   .getTransactions (demoClient 90 100 []) "0xB"]

/-- A fresh parser after `Subscribe` of each of the given strings. -/
def subscribed (addresses : List String) : Parser :=
  addresses.foldl (fun p a => (Subscribe p a).2) NewParser


/-- The heights the block loop of `GetTransactions` passes to `BlockByNumber`, in order,
while the fuel lasts: the loop of `scanBlocks` with only its counter kept. -/
def requestedHeights (currentBlock : Int) : Nat → Int → List Int
  | 0, _ => []
  | fuel + 1, blockI =>
    if blockI ≥ wrapInt64 currentBlock then
      blockI :: requestedHeights currentBlock fuel (wrapInt64 (blockI - 1))
    else
      []

/-- A ledger whose tip is `tip` and which has no block at any height. -/
def noBlockClient (tip : Nat) : Client :=
  { BlockNumber := .ok tip
    BlockByNumber := fun _ => .error "not found" }

/-- A ledger whose tip is `tip` and which answers every height with a block holding
`txs`. -/
def anyBlockClient (tip : Nat) (txs : List Tx) : Client :=
  { BlockNumber := .ok tip
    BlockByNumber := fun _ => .ok { Transactions := txs } }

/-- A ledger whose tip is `tip` and which has two blocks: `txs1` at `height1` and `txs2`
at `height2`. -/
def twoBlockClient (tip : Nat) (height1 : Int) (txs1 : List Tx) (height2 : Int)
    (txs2 : List Tx) : Client :=
  { BlockNumber := .ok tip
    BlockByNumber := fun h =>
      if h = height1 then .ok { Transactions := txs1 }
      else if h = height2 then .ok { Transactions := txs2 }
      else .error "not found" }

/-! ## Addresses in text -/

/-- The value of a hexadecimal digit, in either case. -/
def hexDigitValue (ch : Char) : Option Nat :=
  if 48 ≤ ch.toNat ∧ ch.toNat ≤ 57 then some (ch.toNat - 48)
  else if 97 ≤ ch.toNat ∧ ch.toNat ≤ 102 then some (ch.toNat - 87)
  else if 65 ≤ ch.toNat ∧ ch.toNat ≤ 70 then some (ch.toNat - 55)
  else none

/-- The characters of `s` after a leading "0x" or "0X", if there is one. -/
def hexBody (s : String) : List Char :=
  match s.data with
  | '0' :: 'x' :: rest => rest
  | '0' :: 'X' :: rest => rest
  | chars => chars

/-- The syntax of an address in text: an optional "0x" followed by forty hexadecimal
digits, as go-ethereum's `common.IsHexAddress` checks it.  `parser.go` never calls
it. -/
def IsHexAddress (s : String) : Bool :=
  (hexBody s).length = 40 ∧ (hexBody s).all fun ch => (hexDigitValue ch).isSome

/-- The address a valid text stands for: the number its forty digits spell, whatever
their case. -/
def addressOfText (s : String) : Option Address :=
  if IsHexAddress s then
    some ⟨(hexBody s).foldl (fun n ch => 16 * n + (hexDigitValue ch).getD 0) 0⟩
  else
    none

/-! ## Maps -/

theorem lookup_mapSet_self (m : List (String × Bool)) (k : String) (v : Bool) :
    (mapSet m k v).lookup k = some v := by
  induction m with
  | nil => simp [mapSet, List.lookup]
  | cons e rest ih =>
    obtain ⟨k', v'⟩ := e
    by_cases hk : k' = k
    · simp [mapSet, hk, List.lookup]
    · have hk' : (k == k') = false := by simpa using fun h => hk h.symm
      simp [mapSet, hk, List.lookup, hk', ih]

theorem lookup_mapSet_of_ne (m : List (String × Bool)) (k a : String) (v : Bool)
    (h : a ≠ k) : (mapSet m k v).lookup a = m.lookup a := by
  induction m with
  | nil =>
    have : (a == k) = false := by simpa using h
    simp [mapSet, List.lookup, this]
  | cons e rest ih =>
    obtain ⟨k', v'⟩ := e
    by_cases hk : k' = k
    · subst hk
      have : (a == k') = false := by simpa using h
      simp [mapSet, List.lookup, this]
    · by_cases ha : a = k'
      · subst ha
        simp [mapSet, hk, List.lookup]
      · have : (a == k') = false := by simpa using ha
        simp [mapSet, hk, List.lookup, this, ih]

theorem mapHas_mapSet_self (m : List (String × Bool)) (k : String) (v : Bool) :
    mapHas (mapSet m k v) k = true := by
  simp [mapHas, lookup_mapSet_self]

theorem mapHas_mapSet_of_mapHas (m : List (String × Bool)) (k a : String) (v : Bool)
    (h : mapHas m a = true) : mapHas (mapSet m k v) a = true := by
  by_cases hak : a = k
  · subst hak
    exact mapHas_mapSet_self m a v
  · simpa [mapHas, lookup_mapSet_of_ne m k a v hak] using h

/-! ## Subscribe -/

theorem Subscribe_of_absent (p : Parser) (a : String) (h : mapHas p.observers a = false) :
    Subscribe p a = (true, { p with observers := mapSet p.observers a true }) := by
  simp [Subscribe, h]

theorem Subscribe_of_present (p : Parser) (a : String) (h : mapHas p.observers a = true) :
    Subscribe p a = (false, p) := by
  simp [Subscribe, h]

theorem Subscribe_currentBlock (p : Parser) (a : String) :
    (Subscribe p a).2.currentBlock = p.currentBlock := by
  unfold Subscribe
  split <;> rfl

theorem Subscribe_keeps (p : Parser) (a b : String) (h : mapHas p.observers a = true) :
    mapHas (Subscribe p b).2.observers a = true := by
  unfold Subscribe
  split
  · exact mapHas_mapSet_of_mapHas _ _ _ _ h
  · exact h

/-! ## GetTransactions: what it does to the parser -/

theorem GetTransactions_of_error (hex : Address → String) (fuel : Nat) (c : Client)
    (p : Parser) (address e : String) (h : c.BlockNumber = .error e) :
    GetTransactions hex fuel c p address = some ([], p) := by
  simp [GetTransactions, h]

theorem GetTransactions_state (hex : Address → String) (fuel : Nat) (c : Client)
    (p q : Parser) (address : String) (res : List Transaction)
    (h : GetTransactions hex fuel c p address = some (res, q)) :
    (∃ e, c.BlockNumber = .error e ∧ q = p) ∨
      (∃ tip, c.BlockNumber = .ok tip ∧ q = advance p tip) := by
  unfold GetTransactions at h
  split at h
  · next e he =>
    left
    refine ⟨e, he, ?_⟩
    simp at h
    exact h.2.symm
  · next tip htip =>
    right
    refine ⟨tip, htip, ?_⟩
    simp only at h
    split at h
    · simp at h
      exact h.2.symm
    · simp only [Option.map_eq_some'] at h
      obtain ⟨ts, _, hts⟩ := h
      simp at hts
      exact hts.2.symm

theorem GetTransactions_observers (hex : Address → String) (fuel : Nat) (c : Client)
    (p q : Parser) (address : String) (res : List Transaction)
    (h : GetTransactions hex fuel c p address = some (res, q)) :
    q.observers = p.observers := by
  rcases GetTransactions_state hex fuel c p q address res h with ⟨_, _, rfl⟩ | ⟨_, _, rfl⟩
  · rfl
  · rfl

/-! ## Sequences of calls keep what is subscribed -/

theorem stepOp_keeps (hex : Address → String) (fuel : Nat) (p q : Parser) (op : Op)
    (a : String) (h : mapHas p.observers a = true) (hq : stepOp hex fuel p op = some q) :
    mapHas q.observers a = true := by
  cases op with
  | subscribe b =>
    simp only [stepOp, Option.some.injEq] at hq
    subst hq
    exact Subscribe_keeps p a b h
  | getTransactions c b =>
    simp only [stepOp, Option.map_eq_some'] at hq
    obtain ⟨⟨res, q'⟩, hres, rfl⟩ := hq
    rw [GetTransactions_observers hex fuel c p q' b res hres]
    exact h
  | getCurrentBlock =>
    simp only [stepOp, Option.some.injEq] at hq
    subst hq
    exact h

theorem runOps_keeps (hex : Address → String) (fuel : Nat) (ops : List Op) (p q : Parser)
    (a : String) (h : mapHas p.observers a = true) (hq : runOps hex fuel p ops = some q) :
    mapHas q.observers a = true := by
  induction ops generalizing p with
  | nil =>
    simp only [runOps, Option.some.injEq] at hq
    subst hq
    exact h
  | cons op ops ih =>
    simp only [runOps] at hq
    split at hq
    · simp at hq
    · next p' hp' => exact ih p' (stepOp_keeps hex fuel p p' op a h hp') hq

/-- C1: when `a` is not yet in the subscription set, `Subscribe a` returns `true` and `a`
is in the set afterwards; after any further sequence of `Subscribe`, `GetTransactions`
and `GetCurrentBlock` calls, a later `Subscribe a` returns `false` and leaves the parser,
and so the subscription set, as it was. -/
theorem subscribe_first_true_then_false (hex : Address → String) (p : Parser)
    (a : String) (h : mapHas p.observers a = false) :
    (Subscribe p a).1 = true ∧ mapHas (Subscribe p a).2.observers a = true ∧
      ∀ (fuel : Nat) (ops : List Op) (q : Parser),
        runOps hex fuel (Subscribe p a).2 ops = some q →
          (Subscribe q a).1 = false ∧ (Subscribe q a).2 = q ∧
            (Subscribe q a).2.observers = q.observers := by
  have h1 : mapHas (Subscribe p a).2.observers a = true := by
    rw [Subscribe_of_absent p a h]
    exact mapHas_mapSet_self _ _ _
  refine ⟨by rw [Subscribe_of_absent p a h], h1, ?_⟩
  intro fuel ops q hq
  have h2 := runOps_keeps hex fuel ops _ q a h1 hq
  rw [Subscribe_of_present q a h2]
  exact ⟨rfl, rfl, rfl⟩

/-- C1 at a fresh parser: `Subscribe "0xA"` is new, and after a poll at tip 100, a
`Subscribe "0xB"` and a second poll, `Subscribe "0xA"` returns `false`. -/
theorem subscribe_first_true_then_false_witness :
    mapHas NewParser.observers "0xA" = false ∧
      (Subscribe NewParser "0xA").1 = true ∧
      runOps demoHex 2 (Subscribe NewParser "0xA").2 demoCalls
        = some { currentBlock := some 100, observers := [("0xA", true), ("0xB", true)] } ∧
      (Subscribe { currentBlock := some 100, observers := [("0xA", true), ("0xB", true)] }
          "0xA").1 = false :=
  ⟨by decide, (subscribe_first_true_then_false demoHex NewParser "0xA" (by decide)).1,
    by decide,
    ((subscribe_first_true_then_false demoHex NewParser "0xA" (by decide)).2.2 2
      demoCalls _ (by decide)).1⟩

/-! ## The scan -/

theorem mapGet_of_mapHas_false (m : List (String × Bool)) (k : String)
    (h : mapHas m k = false) : mapGet m k = false := by
  unfold mapHas at h
  unfold mapGet
  cases hl : m.lookup k with
  | none => rfl
  | some v => simp [hl] at h

theorem lookup_mem (m : List (String × Bool)) (k : String) (v : Bool)
    (h : m.lookup k = some v) : (k, v) ∈ m := by
  induction m with
  | nil => simp [List.lookup] at h
  | cons e rest ih =>
    obtain ⟨k', v'⟩ := e
    by_cases hk : k = k'
    · subst hk
      simp [List.lookup] at h
      simp [h]
    · have hk' : (k == k') = false := by simpa using hk
      simp only [List.lookup, hk'] at h
      exact List.mem_cons_of_mem _ (ih h)

theorem mapGet_eq_mapHas (p : Parser) (hwf : p.WF) (k : String) :
    mapGet p.observers k = mapHas p.observers k := by
  unfold mapGet mapHas
  cases hl : p.observers.lookup k with
  | none => rfl
  | some v =>
    have := hwf.1 _ (lookup_mem _ _ _ hl)
    simpa using this

theorem scanTransactions_eq (hex : Address → String) (a : String) (h : Int)
    (txs : List Tx) (acc : List Transaction) :
    scanTransactions hex a h txs acc = acc ++ matchedRecords hex a h txs := by
  induction txs generalizing acc with
  | nil => simp [scanTransactions, matchedRecords]
  | cons tx rest ih =>
    unfold scanTransactions
    cases hs : tx.Sender with
    | error e =>
      simp only [ih]
      simp [matchedRecords, List.filterMap_cons, hs]
    | ok s =>
      cases hr : tx.To with
      | none =>
        simp only [ih]
        simp [matchedRecords, List.filterMap_cons, hs, hr]
      | some r =>
        by_cases hm : hex r = a ∨ hex s = a
        · have hm' : hex s = a ∨ hex r = a := hm.symm
          simp only [hm, if_true, ih]
          simp [matchedRecords, List.filterMap_cons, hs, hr, hm', recordOf]
        · have hm' : ¬ (hex s = a ∨ hex r = a) := fun h => hm h.symm
          simp only [hm, if_false, ih]
          simp [matchedRecords, List.filterMap_cons, hs, hr, hm']

theorem wrapInt64_of_range (x : Int) (h1 : minInt64 ≤ x) (h2 : x ≤ maxInt64) :
    wrapInt64 x = x := by
  unfold wrapInt64 minInt64 maxInt64 at *
  omega

theorem wrapInt64_range (x : Int) : minInt64 ≤ wrapInt64 x ∧ wrapInt64 x ≤ maxInt64 := by
  unfold wrapInt64 minInt64 maxInt64
  omega

theorem wrapInt64_idem (x : Int) : wrapInt64 (wrapInt64 x) = wrapInt64 x :=
  wrapInt64_of_range _ (wrapInt64_range x).1 (wrapInt64_range x).2

theorem wrapInt64_pred (x : Int) (h : wrapInt64 x ≠ minInt64) :
    wrapInt64 (wrapInt64 x - 1) = wrapInt64 x - 1 := by
  have hr := wrapInt64_range x
  apply wrapInt64_of_range
  · have : minInt64 < wrapInt64 x := lt_of_le_of_ne hr.1 (Ne.symm h)
    omega
  · have := hr.2
    omega

/-- The block loop, entered at `p.currentBlock.Int64()`, makes one pass and stops,
unless that height is the least `int64`. -/
theorem scanBlocks_single (hex : Address → String) (c : Client) (cur : Int) (a : String)
    (fuel : Nat) (h : wrapInt64 cur ≠ minInt64) :
    scanBlocks hex c cur a (fuel + 2) (wrapInt64 cur) [] =
      some (blockRecords hex c a (wrapInt64 cur)) := by
  have hstop : ¬ (wrapInt64 (wrapInt64 cur - 1) ≥ wrapInt64 cur) := by
    rw [wrapInt64_pred cur h]
    omega
  unfold scanBlocks
  simp only [ge_iff_le, le_refl, if_true]
  cases hb : c.BlockByNumber (wrapInt64 cur) with
  | error e =>
    simp only
    unfold scanBlocks
    simp only [ge_iff_le] at hstop
    simp [hstop, blockRecords, hb]
  | ok b =>
    simp only
    unfold scanBlocks
    simp only [ge_iff_le] at hstop
    simp [hstop, blockRecords, hb, scanTransactions_eq]

theorem GetTransactions_of_unsubscribed (hex : Address → String) (fuel : Nat)
    (c : Client) (p : Parser) (address : String) (tip : Nat)
    (htip : c.BlockNumber = .ok tip) (h : mapGet p.observers address = false) :
    GetTransactions hex fuel c p address = some ([], advance p tip) := by
  simp [GetTransactions, htip, h, advance]

theorem GetTransactions_of_subscribed (hex : Address → String) (fuel : Nat)
    (c : Client) (p : Parser) (address : String) (tip : Nat)
    (htip : c.BlockNumber = .ok tip) (h : mapGet p.observers address = true)
    (hscan : scanHeight p tip ≠ minInt64) :
    GetTransactions hex (fuel + 2) c p address =
      some (blockRecords hex c address (scanHeight p tip), advance p tip) := by
  unfold scanHeight at hscan
  simp [GetTransactions, htip, h, advance, scanHeight, scanBlocks_single _ _ _ _ _ hscan]

/-- When `p.currentBlock.Int64()` is the least `int64`, the loop condition holds for every
counter value, so no amount of fuel ends the block loop. -/
theorem scanBlocks_none_of_min (hex : Address → String) (c : Client) (cur : Int)
    (a : String) (h : wrapInt64 cur = minInt64) (fuel : Nat) (blockI : Int)
    (acc : List Transaction) (hI : minInt64 ≤ blockI) :
    scanBlocks hex c cur a fuel blockI acc = none := by
  induction fuel generalizing blockI acc with
  | zero => rfl
  | succ n ih =>
    have hnext := (wrapInt64_range (blockI - 1)).1
    unfold scanBlocks
    rw [h]
    simp only [ge_iff_le, hI, if_true]
    split
    · exact ih _ _ hnext
    · exact ih _ _ hnext

/-- A poll for a subscribed address whose scanned height is the least `int64` does not
return, whatever the fuel. -/
theorem GetTransactions_none_of_min (hex : Address → String) (fuel : Nat) (c : Client)
    (p : Parser) (address : String) (tip : Nat) (htip : c.BlockNumber = .ok tip)
    (h : mapGet p.observers address = true) (hscan : scanHeight p tip = minInt64) :
    GetTransactions hex fuel c p address = none := by
  unfold scanHeight at hscan
  have hloop := scanBlocks_none_of_min hex c _ address hscan fuel
    (wrapInt64 (updateCurrentBlock p.currentBlock (int64OfUint64 tip))) []
    (wrapInt64_range _).1
  simp [GetTransactions, htip, h, hloop]

/-! ## The watermark -/

theorem int64OfUint64_of_lt (tip : Nat) (h : tip < 2 ^ 63) : int64OfUint64 tip = tip := by
  unfold int64OfUint64 wrapInt64
  omega

theorem int64OfUint64_range (tip : Nat) :
    minInt64 ≤ int64OfUint64 tip ∧ int64OfUint64 tip ≤ maxInt64 :=
  wrapInt64_range _

theorem updateCurrentBlock_range (cb : Option Int) (b : Int)
    (hcb : ∀ x ∈ cb, minInt64 ≤ x ∧ x ≤ maxInt64) (hb : minInt64 ≤ b ∧ b ≤ maxInt64) :
    minInt64 ≤ updateCurrentBlock cb b ∧ updateCurrentBlock cb b ≤ maxInt64 := by
  unfold updateCurrentBlock
  cases cb with
  | none => exact hb
  | some x =>
    have hx := hcb x rfl
    simp only
    split
    · exact hb
    · exact hx

/-- The watermark rule of the design holds for the tips an `int64` can hold: after a
poll that reads `tip < 2 ^ 63` the watermark is `tip` when it was unset or below `tip`,
and unchanged otherwise. -/
theorem watermark_advance_of_small_tip (p : Parser) (tip : Nat) (h : tip < 2 ^ 63) :
    watermark (advance p tip) =
      match watermark p with
      | none => some (tip : Int)
      | some w => if w < tip then some (tip : Int) else some w := by
  unfold watermark advance updateCurrentBlock
  rw [int64OfUint64_of_lt tip h]
  cases p.currentBlock with
  | none => rfl
  | some w =>
    simp only
    split <;> rfl

/-- Once the watermark is set, a poll never lowers what `GetCurrentBlock` returns. -/
theorem GetCurrentBlock_le_advance (p : Parser) (hwf : p.WF) (tip : Nat)
    (h : p.currentBlock = none → -1 ≤ int64OfUint64 tip) :
    GetCurrentBlock p ≤ GetCurrentBlock (advance p tip) := by
  have hr := int64OfUint64_range tip
  unfold GetCurrentBlock advance
  cases hcb : p.currentBlock with
  | none =>
    simp only [updateCurrentBlock]
    rw [wrapInt64_of_range _ hr.1 hr.2]
    exact h hcb
  | some w =>
    have hw := hwf.2 w (by simp [hcb])
    simp only [updateCurrentBlock]
    rw [wrapInt64_of_range _ hw.1 hw.2]
    split
    · rw [wrapInt64_of_range _ hr.1 hr.2]
      omega
    · rw [wrapInt64_of_range _ hw.1 hw.2]

/-- C2: the watermark reported by `GetCurrentBlock` goes down when the first tip read is
`2 ^ 63`: a fresh parser reports `-1`, and after a poll whose tip fetch answers
`2 ^ 63` it reports `-(2 ^ 63)`, because `int64(blockNumber)` wraps. -/
theorem GetCurrentBlock_drops_at_tip_two_pow_63 :
    GetCurrentBlock NewParser = -1 ∧
      GetTransactions demoHex 2 (demoClient (2 ^ 63) 0 []) NewParser "0xA" =
        some ([], { currentBlock := some (-(2 ^ 63)), observers := [] }) ∧
      GetCurrentBlock { currentBlock := some (-(2 ^ 63)), observers := [] } = -(2 ^ 63) ∧
      ¬ (GetCurrentBlock NewParser ≤
          GetCurrentBlock { currentBlock := some (-(2 ^ 63)), observers := [] }) := by
  decide

/-- C5: the watermark after a poll is not the tip `T` when `T` is `2 ^ 63` or more.
From the unset watermark a poll reading `2 ^ 63 + 5` stores `-(2 ^ 63) + 5`, and from
the watermark `100` the same tip, which exceeds `100`, leaves `100` in place; a first
poll reading `100` does give `100`. -/
theorem watermark_after_tip_beyond_int64 :
    (GetTransactions demoHex 2 (demoClient (2 ^ 63 + 5) 0 []) NewParser "0xA").map
        (fun r => watermark r.2) = some (some (-(2 ^ 63) + 5)) ∧
      (GetTransactions demoHex 2 (demoClient (2 ^ 63 + 5) 0 [])
          { currentBlock := some 100, observers := [] } "0xA").map
        (fun r => watermark r.2) = some (some 100) ∧
      (GetTransactions demoHex 2 (demoClient 100 100 []) NewParser "0xA").map
        (fun r => GetCurrentBlock r.2) = some 100 := by
  decide

/-! ## Matching -/

theorem mem_matchedRecords (hex : Address → String) (a : String) (h : Int)
    (txs : List Tx) (rec : Transaction) :
    rec ∈ matchedRecords hex a h txs ↔
      ∃ tx s r, tx ∈ txs ∧ tx.Sender = .ok s ∧ tx.To = some r ∧
        (hex s = a ∨ hex r = a) ∧ rec = recordOf s r tx h := by
  unfold matchedRecords
  rw [List.mem_filterMap]
  constructor
  · rintro ⟨tx, htx, hf⟩
    cases hs : tx.Sender with
    | error e => simp [hs] at hf
    | ok s =>
      cases hr : tx.To with
      | none => simp [hs, hr] at hf
      | some r =>
        by_cases hm : hex s = a ∨ hex r = a
        · simp only [hs, hr, hm, if_true, Option.some.injEq] at hf
          exact ⟨tx, s, r, htx, hs, hr, hm, hf.symm⟩
        · simp [hs, hr, hm] at hf
  · rintro ⟨tx, s, r, htx, hs, hr, hm, rfl⟩
    exact ⟨tx, htx, by simp [hs, hr, hm]⟩

/-- C3 fails for a registry of two addresses: with "0xA" and "0xC" subscribed, a poll for
"0xC" over a block holding one transfer from "0xA" to "0xB" returns nothing, although
the sender "0xA" is in the subscription set. -/
theorem subscribed_sender_not_reported :
    mapHas (subscribed ["0xA", "0xC"]).observers (demoHex ⟨1⟩) = true ∧
      (transfer 1 2 5 17).Sender = .ok ⟨1⟩ ∧
      GetTransactions demoHex 2 (demoClient 100 100 [transfer 1 2 5 17])
          (subscribed ["0xA", "0xC"]) "0xC" =
        some ([], { currentBlock := some 100,
                    observers := [("0xA", true), ("0xC", true)] }) := by
  decide

/-- C3, amended: when the tip and block fetches succeed and the scanned height is not
the least `int64`, the poll returns, and a transaction of the scanned block with a
recovered sender `s` and a receiver `r` has its record in the result if and only if
the address passed to `GetTransactions` is in the subscription set and `s` or `r`
renders to that very address. -/
theorem record_reported_iff (hex : Address → String) (fuel : Nat) (c : Client)
    (p : Parser) (address : String) (tip : Nat) (b : Block) (tx : Tx) (s r : Address)
    (hwf : p.WF) (htip : c.BlockNumber = .ok tip) (hscan : scanHeight p tip ≠ minInt64)
    (hb : c.BlockByNumber (scanHeight p tip) = .ok b) (htx : tx ∈ b.Transactions)
    (hs : tx.Sender = .ok s) (hr : tx.To = some r) :
    ∃ res q, GetTransactions hex (fuel + 2) c p address = some (res, q) ∧
      (recordOf s r tx (scanHeight p tip) ∈ res ↔
        mapHas p.observers address = true ∧ (hex s = address ∨ hex r = address)) := by
  cases hsub : mapGet p.observers address with
  | false =>
    refine ⟨[], advance p tip,
      GetTransactions_of_unsubscribed hex _ c p address tip htip hsub, ?_⟩
    rw [← mapGet_eq_mapHas p hwf, hsub]
    simp
  | true =>
    refine ⟨_, _, GetTransactions_of_subscribed hex fuel c p address tip htip hsub hscan, ?_⟩
    rw [← mapGet_eq_mapHas p hwf, hsub]
    simp only [blockRecords, hb, mem_matchedRecords, true_and]
    constructor
    · rintro ⟨tx', s', r', _, _, _, hm, heq⟩
      simp only [recordOf, Transaction.mk.injEq] at heq
      rw [heq.1, heq.2.1]
      exact hm
    · intro hm
      exact ⟨tx, s, r, htx, hs, hr, hm, rfl⟩

/-- C3, amended, at a block with a transfer from "0xA" to "0xB": the poll for the
subscribed "0xA" reports it. -/
theorem record_reported_iff_witness :
    ∃ res q, GetTransactions demoHex 2 (demoClient 100 100 [transfer 1 2 5 17])
        (subscribed ["0xA", "0xC"]) "0xA" = some (res, q) ∧
      (recordOf ⟨1⟩ ⟨2⟩ (transfer 1 2 5 17) (scanHeight (subscribed ["0xA", "0xC"]) 100)
          ∈ res ↔
        mapHas (subscribed ["0xA", "0xC"]).observers "0xA" = true ∧
          (demoHex ⟨1⟩ = "0xA" ∨ demoHex ⟨2⟩ = "0xA")) :=
  record_reported_iff demoHex 0 (demoClient 100 100 [transfer 1 2 5 17])
    (subscribed ["0xA", "0xC"]) "0xA" 100 { Transactions := [transfer 1 2 5 17] }
    (transfer 1 2 5 17) ⟨1⟩ ⟨2⟩ (by decide) rfl (by decide) (by decide) (by simp) rfl rfl

/-- Away from the least `int64`, the refinement the design states: for a subscribed
address `A` and a poll whose tip fetch answers `tip` and whose
fetch of the scanned block answers `b` (the scanned height not being the least `int64`),
`GetTransactions A` returns, in the block's order, exactly the records
`{From, To, Value, Hash, BlockNumber := scanned height}` of the transactions of `b` that
have a recovered sender, a receiver, and whose sender or receiver renders to `A`; a
block holding the single transfer `tx` from `A` yields exactly the record of `tx`. -/
theorem GetTransactions_eq_matchedRecords (hex : Address → String) (fuel : Nat)
    (c : Client) (p : Parser) (A : String) (tip : Nat) (b : Block)
    (hwf : p.WF) (hsub : mapHas p.observers A = true) (htip : c.BlockNumber = .ok tip)
    (hscan : scanHeight p tip ≠ minInt64)
    (hb : c.BlockByNumber (scanHeight p tip) = .ok b) :
    GetTransactions hex (fuel + 2) c p A =
        some (matchedRecords hex A (scanHeight p tip) b.Transactions, advance p tip) ∧
      ∀ tx s r, b.Transactions = [tx] → tx.Sender = .ok s → tx.To = some r → hex s = A →
        GetTransactions hex (fuel + 2) c p A =
          some ([{ From := s, To := r, Value := tx.Value, Hash := tx.Hash,
                   BlockNumber := scanHeight p tip }], advance p tip) := by
  have hget : mapGet p.observers A = true := by rw [mapGet_eq_mapHas p hwf, hsub]
  have hmain := GetTransactions_of_subscribed hex fuel c p A tip htip hget hscan
  simp only [blockRecords, hb] at hmain
  refine ⟨hmain, ?_⟩
  intro tx s r hone hs hr hA
  rw [hmain, hone]
  simp [matchedRecords, hs, hr, hA, recordOf]

/-- The design's scenario: "0xA" subscribed, tip 100, block 100 holding one
transfer of 5 from "0xA" to "0xB" with hash 17. -/
theorem GetTransactions_eq_matchedRecords_witness :
    (subscribed ["0xA"]).WF ∧ mapHas (subscribed ["0xA"]).observers "0xA" = true ∧
      GetTransactions demoHex 2 (demoClient 100 100 [transfer 1 2 5 17])
          (subscribed ["0xA"]) "0xA" =
        some ([{ From := ⟨1⟩, To := ⟨2⟩, Value := 5, Hash := ⟨17⟩, BlockNumber := 100 }],
          { currentBlock := some 100, observers := [("0xA", true)] }) :=
  ⟨by decide, by decide,
    (GetTransactions_eq_matchedRecords demoHex 0 (demoClient 100 100 [transfer 1 2 5 17])
      (subscribed ["0xA"]) "0xA" 100 { Transactions := [transfer 1 2 5 17] }
      (by decide) (by decide) rfl (by decide) (by decide)).2
      (transfer 1 2 5 17) ⟨1⟩ ⟨2⟩ rfl rfl rfl (by decide)⟩

/-! ## Where the records of a result come from -/

theorem BuiltFrom_of_mem_matchedRecords (hex : Address → String) (c : Client)
    (a : String) (h : Int) (b : Block) (hb : c.BlockByNumber h = .ok b)
    (rec : Transaction) (hrec : rec ∈ matchedRecords hex a h b.Transactions) :
    BuiltFrom c rec := by
  rw [mem_matchedRecords] at hrec
  obtain ⟨tx, s, r, htx, hs, hr, _, rfl⟩ := hrec
  exact ⟨b, tx, hb, htx, hs, hr, rfl, rfl⟩

theorem scanBlocks_BuiltFrom (hex : Address → String) (c : Client) (cur : Int)
    (a : String) (fuel : Nat) (blockI : Int) (acc res : List Transaction)
    (hacc : ∀ rec ∈ acc, BuiltFrom c rec)
    (h : scanBlocks hex c cur a fuel blockI acc = some res) :
    ∀ rec ∈ res, BuiltFrom c rec := by
  induction fuel generalizing blockI acc with
  | zero => simp [scanBlocks] at h
  | succ n ih =>
    unfold scanBlocks at h
    split at h
    · split at h
      · exact ih _ _ hacc h
      · next block hb =>
        refine ih _ _ ?_ h
        intro rec hrec
        rw [scanTransactions_eq, List.mem_append] at hrec
        rcases hrec with hrec | hrec
        · exact hacc rec hrec
        · exact BuiltFrom_of_mem_matchedRecords hex c a blockI block hb rec hrec
    · simp only [Option.some.injEq] at h
      subst h
      exact hacc

theorem GetTransactions_BuiltFrom (hex : Address → String) (fuel : Nat) (c : Client)
    (p q : Parser) (address : String) (res : List Transaction)
    (h : GetTransactions hex fuel c p address = some (res, q)) :
    ∀ rec ∈ res, BuiltFrom c rec := by
  unfold GetTransactions at h
  split at h
  · simp only [Option.some.injEq, Prod.mk.injEq] at h
    rw [← h.1]
    simp
  · simp only at h
    split at h
    · simp only [Option.some.injEq, Prod.mk.injEq] at h
      rw [← h.1]
      simp
    · simp only [Option.map_eq_some', Prod.mk.injEq] at h
      obtain ⟨ts, hts, rfl, _⟩ := h
      exact scanBlocks_BuiltFrom hex c _ address fuel _ [] ts (by simp) hts

/-- A poll returns whenever the height it scans is not the least `int64`. -/
theorem GetTransactions_returns (hex : Address → String) (fuel : Nat) (c : Client)
    (p : Parser) (address : String)
    (hscan : ∀ tip, c.BlockNumber = .ok tip → scanHeight p tip ≠ minInt64) :
    ∃ res q, GetTransactions hex (fuel + 2) c p address = some (res, q) := by
  cases htip : c.BlockNumber with
  | error e => exact ⟨_, _, GetTransactions_of_error hex _ c p address e htip⟩
  | ok tip =>
    cases hsub : mapGet p.observers address with
    | false => exact ⟨_, _, GetTransactions_of_unsubscribed hex _ c p address tip htip hsub⟩
    | true =>
      exact ⟨_, _, GetTransactions_of_subscribed hex fuel c p address tip htip hsub
        (hscan tip htip)⟩

/-! ## Transactions that are skipped -/

theorem matchedRecords_filter (hex : Address → String) (a : String) (h : Int)
    (keep : Tx → Bool)
    (hkeep : ∀ tx, keep tx = false → tx.To = none ∨ ∃ e, tx.Sender = .error e)
    (txs : List Tx) :
    matchedRecords hex a h (txs.filter keep) = matchedRecords hex a h txs := by
  induction txs with
  | nil => rfl
  | cons tx rest ih =>
    cases hk : keep tx with
    | true =>
      rw [List.filter_cons_of_pos hk]
      unfold matchedRecords at ih ⊢
      simp only [List.filterMap_cons, ih]
    | false =>
      rw [List.filter_cons_of_neg (by simp [hk])]
      unfold matchedRecords at ih ⊢
      rw [ih]
      symm
      apply List.filterMap_cons_none
      rcases hkeep tx hk with hto | ⟨e, he⟩
      · cases hs : tx.Sender <;> simp [hto]
      · simp [he]

theorem scanBlocks_filterTxs (hex : Address → String) (c : Client) (cur : Int)
    (a : String) (keep : Tx → Bool)
    (hkeep : ∀ tx, keep tx = false → tx.To = none ∨ ∃ e, tx.Sender = .error e)
    (fuel : Nat) (blockI : Int) (acc : List Transaction) :
    scanBlocks hex (c.filterTxs keep) cur a fuel blockI acc =
      scanBlocks hex c cur a fuel blockI acc := by
  induction fuel generalizing blockI acc with
  | zero => rfl
  | succ n ih =>
    unfold scanBlocks
    split
    · cases hb : c.BlockByNumber blockI with
      | error e =>
        have hf : (c.filterTxs keep).BlockByNumber blockI = .error e := by
          simp [Client.filterTxs, hb]
        rw [hf]
        exact ih _ _
      | ok b =>
        have hf : (c.filterTxs keep).BlockByNumber blockI =
            .ok { Transactions := b.Transactions.filter keep } := by
          simp [Client.filterTxs, hb]
        rw [hf]
        simp only
        rw [scanTransactions_eq, scanTransactions_eq,
          matchedRecords_filter hex a blockI keep hkeep]
        exact ih _ _
    · rfl

theorem GetTransactions_filterTxs (hex : Address → String) (c : Client) (p : Parser)
    (a : String) (keep : Tx → Bool)
    (hkeep : ∀ tx, keep tx = false → tx.To = none ∨ ∃ e, tx.Sender = .error e)
    (fuel : Nat) :
    GetTransactions hex fuel (c.filterTxs keep) p a = GetTransactions hex fuel c p a := by
  unfold GetTransactions
  have hbn : (c.filterTxs keep).BlockNumber = c.BlockNumber := rfl
  rw [hbn]
  cases c.BlockNumber with
  | error e => rfl
  | ok tip =>
    simp only
    rw [scanBlocks_filterTxs hex c _ a keep hkeep]

theorem matchedRecords_append (hex : Address → String) (a : String) (h : Int)
    (xs ys : List Tx) :
    matchedRecords hex a h (xs ++ ys) =
      matchedRecords hex a h xs ++ matchedRecords hex a h ys := by
  simp [matchedRecords, List.filterMap_append]

theorem matchedRecords_cons_of_error (hex : Address → String) (a : String) (h : Int)
    (tx : Tx) (rest : List Tx) (e : String) (he : tx.Sender = .error e) :
    matchedRecords hex a h (tx :: rest) = matchedRecords hex a h rest := by
  unfold matchedRecords
  apply List.filterMap_cons_none
  simp [he]

theorem matchedRecords_of_no_receiver (hex : Address → String) (a : String) (h : Int)
    (txs : List Tx) (hto : ∀ tx ∈ txs, tx.To = none) : matchedRecords hex a h txs = [] := by
  rw [List.eq_nil_iff_forall_not_mem]
  intro rec hrec
  rw [mem_matchedRecords] at hrec
  obtain ⟨tx, s, r, htx, _, hr, _, _⟩ := hrec
  rw [hto tx htx] at hr
  exact Option.noConfusion hr

/-- Every record of a result of `GetTransactions` is built from a transaction that
has a receiver (and a recovered sender), for every parser, ledger and address; the
result is the one the ledger gives with its receiver-less transactions removed; and
when the scanned block holds only receiver-less transactions the poll returns the empty
sequence, whoever sent them. -/
theorem contract_creation_not_reported (hex : Address → String) (c : Client)
    (p : Parser) (address : String) :
    (∀ fuel res q, GetTransactions hex fuel c p address = some (res, q) →
        ∀ rec ∈ res, BuiltFrom c rec) ∧
      (∀ fuel, GetTransactions hex fuel (c.filterTxs fun tx => tx.To.isSome) p address =
        GetTransactions hex fuel c p address) ∧
      (∀ fuel tip b, c.BlockNumber = .ok tip → scanHeight p tip ≠ minInt64 →
        c.BlockByNumber (scanHeight p tip) = .ok b →
        (∀ tx ∈ b.Transactions, tx.To = none) →
        GetTransactions hex (fuel + 2) c p address = some ([], advance p tip)) := by
  refine ⟨fun fuel res q h => GetTransactions_BuiltFrom hex fuel c p q address res h,
    fun fuel => GetTransactions_filterTxs hex c p address _ ?_ fuel, ?_⟩
  · intro tx hk
    left
    cases hto : tx.To with
    | none => rfl
    | some r => simp [hto] at hk
  · intro fuel tip b htip hscan hb hto
    cases hsub : mapGet p.observers address with
    | false => exact GetTransactions_of_unsubscribed hex _ c p address tip htip hsub
    | true =>
      rw [GetTransactions_of_subscribed hex fuel c p address tip htip hsub hscan]
      simp only [blockRecords, hb, matchedRecords_of_no_receiver hex address _ _ hto]

/-- The design's scenario of a contract creation: "0xC" subscribed, and the scanned block holds one
contract creation sent by "0xC". -/
theorem contract_creation_not_reported_witness :
    (creation 3 0 21).Sender = .ok ⟨3⟩ ∧ demoHex ⟨3⟩ = "0xC" ∧
      mapHas (subscribed ["0xC"]).observers "0xC" = true ∧
      GetTransactions demoHex 2 (demoClient 100 100 [creation 3 0 21])
          (subscribed ["0xC"]) "0xC" =
        some ([], { currentBlock := some 100, observers := [("0xC", true)] }) :=
  ⟨rfl, by decide, by decide,
    (contract_creation_not_reported demoHex (demoClient 100 100 [creation 3 0 21])
      (subscribed ["0xC"]) "0xC").2.2 0 100 { Transactions := [creation 3 0 21] }
      rfl (by decide) (by decide) (by decide)⟩

/-- C7: every record of a result of `GetTransactions` is built from a transaction whose
sender was recovered, for every parser, ledger and address; the result is the one the
ledger gives with the transactions of unrecoverable sender removed; and a transaction
`bad` of unrecoverable sender does not stop the scan: for a subscribed address the
result is what the loop collects from the transactions before `bad` followed by what
it collects from those after `bad`. -/
theorem unrecoverable_sender_skipped (hex : Address → String) (c : Client)
    (p : Parser) (address : String) :
    (∀ fuel res q, GetTransactions hex fuel c p address = some (res, q) →
        ∀ rec ∈ res, ∃ b tx, c.BlockByNumber rec.BlockNumber = .ok b ∧
          tx ∈ b.Transactions ∧ tx.Sender = .ok rec.From ∧ tx.Hash = rec.Hash) ∧
      (∀ fuel, GetTransactions hex fuel (c.filterTxs fun tx => tx.Sender.isOk) p address =
        GetTransactions hex fuel c p address) ∧
      (∀ fuel tip b pre bad post e, p.WF → mapHas p.observers address = true →
        c.BlockNumber = .ok tip → scanHeight p tip ≠ minInt64 →
        c.BlockByNumber (scanHeight p tip) = .ok b →
        b.Transactions = pre ++ bad :: post → bad.Sender = .error e →
        GetTransactions hex (fuel + 2) c p address =
          some (scanTransactions hex address (scanHeight p tip) post
                  (scanTransactions hex address (scanHeight p tip) pre []),
                advance p tip)) := by
  refine ⟨?_, fun fuel => GetTransactions_filterTxs hex c p address _ ?_ fuel, ?_⟩
  · intro fuel res q h rec hrec
    obtain ⟨b, tx, hb, htx, hs, _, _, hh⟩ :=
      GetTransactions_BuiltFrom hex fuel c p q address res h rec hrec
    exact ⟨b, tx, hb, htx, hs, hh⟩
  · intro tx hk
    right
    cases hs : tx.Sender with
    | error e => exact ⟨e, rfl⟩
    | ok s => simp [hs, Except.isOk, Except.toBool] at hk
  · intro fuel tip b pre bad post e hwf hsub htip hscan hb hsplit hbad
    have hget : mapGet p.observers address = true := by rw [mapGet_eq_mapHas p hwf, hsub]
    rw [GetTransactions_of_subscribed hex fuel c p address tip htip hget hscan]
    simp only [blockRecords, hb, hsplit, matchedRecords_append,
      matchedRecords_cons_of_error hex address _ bad post e hbad, scanTransactions_eq,
      List.nil_append]

/-- C7 at a block whose first transaction, sent to the subscribed "0xB", has no
recoverable sender and whose second is a transfer from "0xA" to "0xB": only the second
is reported. -/
theorem unrecoverable_sender_skipped_witness :
    (subscribed ["0xB"]).WF ∧ mapHas (subscribed ["0xB"]).observers "0xB" = true ∧
      GetTransactions demoHex 2 (demoClient 100 100 [unsigned 2 9 16, transfer 1 2 5 17])
          (subscribed ["0xB"]) "0xB" =
        some ([{ From := ⟨1⟩, To := ⟨2⟩, Value := 5, Hash := ⟨17⟩, BlockNumber := 100 }],
          { currentBlock := some 100, observers := [("0xB", true)] }) :=
  ⟨by decide, by decide,
    (unrecoverable_sender_skipped demoHex
      (demoClient 100 100 [unsigned 2 9 16, transfer 1 2 5 17])
      (subscribed ["0xB"]) "0xB").2.2 0 100
      { Transactions := [unsigned 2 9 16, transfer 1 2 5 17] } [] (unsigned 2 9 16)
      [transfer 1 2 5 17] "invalid signature" (by decide) (by decide) rfl (by decide)
      (by decide) rfl rfl⟩

/-- C8: for an address that is not in the subscription set `GetTransactions` returns the
empty sequence, for every ledger and every amount of fuel, and the subscription set
stays as it was. -/
theorem unsubscribed_yields_empty (hex : Address → String) (fuel : Nat) (c : Client)
    (p : Parser) (address : String) (h : mapHas p.observers address = false) :
    ∃ q, GetTransactions hex fuel c p address = some ([], q) ∧
      q.observers = p.observers := by
  cases htip : c.BlockNumber with
  | error e => exact ⟨p, GetTransactions_of_error hex fuel c p address e htip, rfl⟩
  | ok tip =>
    exact ⟨advance p tip,
      GetTransactions_of_unsubscribed hex fuel c p address tip htip
        (mapGet_of_mapHas_false _ _ h), rfl⟩

/-- C8 before any subscription: the scanned block holds a transfer from "0xA" to "0xB",
and the poll for "0xA" returns nothing. -/
theorem unsubscribed_yields_empty_witness :
    mapHas NewParser.observers "0xA" = false ∧ demoHex ⟨1⟩ = "0xA" ∧
      ∃ q, GetTransactions demoHex 2 (demoClient 100 100 [transfer 1 2 5 17]) NewParser
          "0xA" = some ([], q) ∧ q.observers = NewParser.observers :=
  ⟨by decide, by decide,
    unsubscribed_yields_empty demoHex 2 (demoClient 100 100 [transfer 1 2 5 17]) NewParser
      "0xA" (by decide)⟩

/-- C9: when the tip-height fetch fails, `GetTransactions` returns and leaves the parser
as it was: `GetCurrentBlock` and the subscription set are unchanged. -/
theorem tip_failure_keeps_state (hex : Address → String) (fuel : Nat) (c : Client)
    (p : Parser) (address e : String) (h : c.BlockNumber = .error e) :
    ∃ res q, GetTransactions hex fuel c p address = some (res, q) ∧
      GetCurrentBlock q = GetCurrentBlock p ∧ q.observers = p.observers ∧ q = p :=
  ⟨[], p, GetTransactions_of_error hex fuel c p address e h, rfl, rfl, rfl⟩

/-- C9 at a parser with watermark 100 and "0xA" subscribed. -/
theorem tip_failure_keeps_state_witness :
    downClient.BlockNumber = .error "connection refused" ∧
      ∃ res q, GetTransactions demoHex 2 downClient
          { currentBlock := some 100, observers := [("0xA", true)] } "0xA" = some (res, q) ∧
        GetCurrentBlock q = GetCurrentBlock { currentBlock := some 100,
                                               observers := [("0xA", true)] } ∧
        q.observers = [("0xA", true)] ∧
        q = { currentBlock := some 100, observers := [("0xA", true)] } :=
  ⟨rfl, tip_failure_keeps_state demoHex 2 downClient
    { currentBlock := some 100, observers := [("0xA", true)] } "0xA" "connection refused"
    rfl⟩

/-- C10 fails: the outcome of a poll whose tip fetch fails is the same value as the
outcome of a successful poll in which no transaction matches. -/
theorem tip_failure_same_as_no_match :
    downClient.BlockNumber = .error "connection refused" ∧
      (demoClient 100 100 [transfer 2 3 5 17]).BlockNumber = .ok 100 ∧
      (GetTransactions demoHex 2 downClient (subscribed ["0xA"]) "0xA").map (·.1) =
        (GetTransactions demoHex 2 (demoClient 100 100 [transfer 2 3 5 17])
          (subscribed ["0xA"]) "0xA").map (·.1) := by
  decide

/-- C10, amended: when the tip-height fetch fails, `GetTransactions` returns the empty
sequence, for every parser, address and amount of fuel; its outcome carries no error. -/
theorem tip_failure_yields_empty (hex : Address → String) (fuel : Nat) (c : Client)
    (p : Parser) (address e : String) (h : c.BlockNumber = .error e) :
    (GetTransactions hex fuel c p address).map (·.1) = some [] := by
  rw [GetTransactions_of_error hex fuel c p address e h]
  rfl

/-- C10, amended, at a ledger that is down. -/
theorem tip_failure_yields_empty_witness :
    (GetTransactions demoHex 0 downClient (subscribed ["0xA"]) "0xA").map (·.1) = some [] :=
  tip_failure_yields_empty demoHex 0 downClient (subscribed ["0xA"]) "0xA"
    "connection refused" rfl

/-! ## The invariant of reachable parsers -/

theorem NewParser_WF : NewParser.WF := by decide

theorem mem_mapSet (m : List (String × Bool)) (k : String) (v : Bool) (e : String × Bool)
    (h : e ∈ mapSet m k v) : e ∈ m ∨ e = (k, v) := by
  induction m with
  | nil =>
    simp only [mapSet, List.mem_singleton] at h
    exact Or.inr h
  | cons x rest ih =>
    obtain ⟨k', v'⟩ := x
    unfold mapSet at h
    split at h
    · rcases List.mem_cons.1 h with h | h
      · exact Or.inr h
      · exact Or.inl (List.mem_cons_of_mem _ h)
    · rcases List.mem_cons.1 h with h | h
      · exact Or.inl (h ▸ List.mem_cons_self _ _)
      · rcases ih h with h | h
        · exact Or.inl (List.mem_cons_of_mem _ h)
        · exact Or.inr h

theorem Subscribe_WF (p : Parser) (a : String) (hwf : p.WF) : (Subscribe p a).2.WF := by
  unfold Subscribe
  split
  · refine ⟨?_, hwf.2⟩
    intro e he
    rcases mem_mapSet _ _ _ _ he with he | he
    · exact hwf.1 e he
    · rw [he]
  · exact hwf

theorem advance_WF (p : Parser) (tip : Nat) (hwf : p.WF) : (advance p tip).WF := by
  refine ⟨hwf.1, ?_⟩
  intro b hb
  simp only [advance, Option.mem_def, Option.some.injEq] at hb
  rw [← hb]
  exact updateCurrentBlock_range _ _ hwf.2 (int64OfUint64_range tip)

theorem GetTransactions_WF (hex : Address → String) (fuel : Nat) (c : Client)
    (p q : Parser) (address : String) (res : List Transaction) (hwf : p.WF)
    (h : GetTransactions hex fuel c p address = some (res, q)) : q.WF := by
  rcases GetTransactions_state hex fuel c p q address res h with ⟨_, _, rfl⟩ | ⟨tip, _, rfl⟩
  · exact hwf
  · exact advance_WF p tip hwf

theorem runOps_WF (hex : Address → String) (fuel : Nat) (ops : List Op) (p q : Parser)
    (hwf : p.WF) (hq : runOps hex fuel p ops = some q) : q.WF := by
  induction ops generalizing p with
  | nil =>
    simp only [runOps, Option.some.injEq] at hq
    exact hq ▸ hwf
  | cons op ops ih =>
    simp only [runOps] at hq
    split at hq
    · simp at hq
    · next p' hp' =>
      refine ih p' ?_ hq
      cases op with
      | subscribe b =>
        simp only [stepOp, Option.some.injEq] at hp'
        exact hp' ▸ Subscribe_WF p b hwf
      | getTransactions c b =>
        simp only [stepOp, Option.map_eq_some'] at hp'
        obtain ⟨⟨res, q'⟩, hres, rfl⟩ := hp'
        exact GetTransactions_WF hex fuel c p q' b res hwf hres
      | getCurrentBlock =>
        simp only [stepOp, Option.some.injEq] at hp'
        exact hp' ▸ hwf

/-- For tips an `int64` can hold, no poll lowers what `GetCurrentBlock` returns. -/
theorem GetCurrentBlock_mono_of_small_tip (hex : Address → String) (fuel : Nat)
    (c : Client) (p q : Parser) (address : String) (res : List Transaction) (hwf : p.WF)
    (hsmall : ∀ tip, c.BlockNumber = .ok tip → tip < 2 ^ 63)
    (h : GetTransactions hex fuel c p address = some (res, q)) :
    GetCurrentBlock p ≤ GetCurrentBlock q := by
  rcases GetTransactions_state hex fuel c p q address res h with
    ⟨_, _, rfl⟩ | ⟨tip, htip, rfl⟩
  · exact le_refl _
  · apply GetCurrentBlock_le_advance p hwf tip
    intro _
    rw [int64OfUint64_of_lt tip (hsmall tip htip)]
    omega

/-! ## A failing block fetch -/

theorem blockRecords_of_error (hex : Address → String) (c : Client) (a : String)
    (h : Int) (e : String) (hb : c.BlockByNumber h = .error e) :
    blockRecords hex c a h = [] := by
  simp [blockRecords, hb]

theorem GetCurrentBlock_advance (p : Parser) (tip : Nat) :
    GetCurrentBlock (advance p tip) = scanHeight p tip := rfl

/-- C11: a failed block fetch does not leave the watermark as it was.  With "0xA" subscribed on a fresh parser and a ledger whose tip is 100 but
which has no block, the poll changes what `GetCurrentBlock` returns from `-1` to `100`. -/
theorem block_failure_moves_watermark :
    (noBlockClient 100).BlockNumber = .ok 100 ∧
      (noBlockClient 100).BlockByNumber 100 = .error "not found" ∧
      GetCurrentBlock (subscribed ["0xA"]) = -1 ∧
      GetTransactions demoHex 2 (noBlockClient 100) (subscribed ["0xA"]) "0xA" =
        some ([], { currentBlock := some 100, observers := [("0xA", true)] }) ∧
      GetCurrentBlock { currentBlock := some 100, observers := [("0xA", true)] } = 100 := by
  decide

/-- When the tip fetch answers `tip` and the fetch of the block to scan
fails, the poll for a subscribed address returns, the subscription set is as before,
and the watermark is the one the tip sets, not the one before the call: it is what
`GetCurrentBlock` then returns, the scanned height, and for `tip < 2 ^ 63` it is `tip`
when the watermark was unset or below `tip`, and the old watermark otherwise. -/
theorem block_failure_keeps_set_not_watermark (hex : Address → String) (fuel : Nat)
    (c : Client) (p : Parser) (A : String) (tip : Nat) (e : String)
    (hwf : p.WF) (hsub : mapHas p.observers A = true) (htip : c.BlockNumber = .ok tip)
    (hscan : scanHeight p tip ≠ minInt64)
    (hb : c.BlockByNumber (scanHeight p tip) = .error e) :
    ∃ q, GetTransactions hex (fuel + 2) c p A = some ([], q) ∧
      q.observers = p.observers ∧
      watermark q = some (updateCurrentBlock p.currentBlock (int64OfUint64 tip)) ∧
      GetCurrentBlock q = scanHeight p tip ∧
      (tip < 2 ^ 63 →
        watermark q =
          match watermark p with
          | none => some (tip : Int)
          | some w => if w < tip then some (tip : Int) else some w) := by
  have hget : mapGet p.observers A = true := by rw [mapGet_eq_mapHas p hwf, hsub]
  have hres := GetTransactions_of_subscribed hex fuel c p A tip htip hget hscan
  rw [blockRecords_of_error hex c A _ e hb] at hres
  exact ⟨_, hres, rfl, rfl, rfl, fun hlt => watermark_advance_of_small_tip p tip hlt⟩

/-- At a fresh parser with "0xA" subscribed and a ledger of tip 100 without
blocks. -/
theorem block_failure_keeps_set_not_watermark_witness :
    ∃ q, GetTransactions demoHex 2 (noBlockClient 100) (subscribed ["0xA"]) "0xA" =
        some ([], q) ∧
      q.observers = (subscribed ["0xA"]).observers ∧
      watermark q =
        some (updateCurrentBlock (subscribed ["0xA"]).currentBlock (int64OfUint64 100)) ∧
      GetCurrentBlock q = scanHeight (subscribed ["0xA"]) 100 ∧
      (100 < 2 ^ 63 →
        watermark q =
          match watermark (subscribed ["0xA"]) with
          | none => some ((100 : Nat) : Int)
          | some w => if w < (100 : Nat) then some ((100 : Nat) : Int) else some w) :=
  block_failure_keeps_set_not_watermark demoHex 0 (noBlockClient 100) (subscribed ["0xA"])
    "0xA" 100 "not found" (by decide) (by decide) rfl (by decide) rfl

/-- When the tip fetch succeeds and the fetch of the block to scan fails, the poll
for a subscribed address returns the empty sequence (the scanned height not being the
least `int64`). -/
theorem block_failure_yields_empty (hex : Address → String) (fuel : Nat) (c : Client)
    (p : Parser) (A : String) (tip : Nat) (e : String)
    (hwf : p.WF) (hsub : mapHas p.observers A = true) (htip : c.BlockNumber = .ok tip)
    (hscan : scanHeight p tip ≠ minInt64)
    (hb : c.BlockByNumber (scanHeight p tip) = .error e) :
    GetTransactions hex (fuel + 2) c p A = some ([], advance p tip) := by
  have hget : mapGet p.observers A = true := by rw [mapGet_eq_mapHas p hwf, hsub]
  rw [GetTransactions_of_subscribed hex fuel c p A tip htip hget hscan,
    blockRecords_of_error hex c A _ e hb]

/-- At a parser with watermark 40 and "0xA" subscribed, and a ledger of tip 100
without blocks. -/
theorem block_failure_yields_empty_witness :
    (noBlockClient 100).BlockByNumber 100 = .error "not found" ∧
      GetTransactions demoHex 2 (noBlockClient 100)
          { currentBlock := some 40, observers := [("0xA", true)] } "0xA" =
        some ([], { currentBlock := some 100, observers := [("0xA", true)] }) :=
  ⟨rfl, block_failure_yields_empty demoHex 0 (noBlockClient 100)
    { currentBlock := some 40, observers := [("0xA", true)] } "0xA" 100 "not found"
    (by decide) (by decide) rfl (by decide) rfl⟩

/-! ## The blocks a poll asks for -/

/-- The result of the block loop depends on the ledger only through its answers at the
heights in `requestedHeights`. -/
theorem scanBlocks_congr (hex : Address → String) (c1 c2 : Client) (cur : Int)
    (a : String) (fuel : Nat) (blockI : Int) (acc : List Transaction)
    (h : ∀ x ∈ requestedHeights cur fuel blockI, c1.BlockByNumber x = c2.BlockByNumber x) :
    scanBlocks hex c1 cur a fuel blockI acc = scanBlocks hex c2 cur a fuel blockI acc := by
  induction fuel generalizing blockI acc with
  | zero => rfl
  | succ n ih =>
    unfold requestedHeights at h
    unfold scanBlocks
    by_cases hc : blockI ≥ wrapInt64 cur
    · simp only [hc, if_true] at h ⊢
      rw [← h blockI (List.mem_cons_self _ _)]
      have hrest := fun acc' =>
        ih (wrapInt64 (blockI - 1)) acc' fun x hx => h x (List.mem_cons_of_mem _ hx)
      cases c1.BlockByNumber blockI with
      | error e => exact hrest _
      | ok b => exact hrest _
    · simp only [hc, if_false]

/-- Away from the least `int64`, the block loop asks for one block: the one at
`p.currentBlock.Int64()`. -/
theorem requestedHeights_single (cur : Int) (fuel : Nat) (h : wrapInt64 cur ≠ minInt64) :
    requestedHeights cur (fuel + 2) (wrapInt64 cur) = [wrapInt64 cur] := by
  have hstop : ¬ (wrapInt64 (wrapInt64 cur - 1) ≥ wrapInt64 cur) := by
    rw [wrapInt64_pred cur h]
    omega
  unfold requestedHeights
  simp only [ge_iff_le, le_refl, if_true]
  unfold requestedHeights
  simp only [ge_iff_le] at hstop
  simp [hstop]

/-- At the least `int64` the block loop asks for a further block at every turn. -/
theorem requestedHeights_length_of_min (cur : Int) (h : wrapInt64 cur = minInt64)
    (fuel : Nat) (blockI : Int) (hI : minInt64 ≤ blockI) :
    (requestedHeights cur fuel blockI).length = fuel := by
  induction fuel generalizing blockI with
  | zero => rfl
  | succ n ih =>
    unfold requestedHeights
    rw [h]
    simp only [ge_iff_le, hI, if_true, List.length_cons]
    rw [ih _ (wrapInt64_range (blockI - 1)).1]

/-- C13 fails at the tip `2 ^ 63`: for a fresh parser with "0xA" subscribed the scanned
height is the least `int64`, `blockI--` wraps to the greatest, and the loop condition
stays true: no amount of fuel makes `GetTransactions` return, the loop asks for as many
blocks as it has fuel, and its first three requests are `-(2 ^ 63)`, `2 ^ 63 - 1` and
`2 ^ 63 - 2`. -/
theorem block_loop_unbounded_at_tip_two_pow_63 :
    scanHeight (subscribed ["0xA"]) (2 ^ 63) = -(2 ^ 63) ∧
      (∀ fuel, GetTransactions demoHex fuel (noBlockClient (2 ^ 63)) (subscribed ["0xA"])
        "0xA" = none) ∧
      (∀ fuel, (requestedHeights (-(2 ^ 63)) fuel (-(2 ^ 63))).length = fuel) ∧
      requestedHeights (-(2 ^ 63)) 3 (-(2 ^ 63)) = [-(2 ^ 63), 2 ^ 63 - 1, 2 ^ 63 - 2] :=
  ⟨by decide,
    fun fuel => GetTransactions_none_of_min demoHex fuel (noBlockClient (2 ^ 63))
      (subscribed ["0xA"]) "0xA" (2 ^ 63) rfl (by decide) (by decide),
    fun fuel => requestedHeights_length_of_min (-(2 ^ 63)) (by decide) fuel (-(2 ^ 63))
      (by decide),
    by decide⟩

/-! ## Two polls in a row -/

theorem updateCurrentBlock_idem (cb : Option Int) (b : Int) :
    updateCurrentBlock (some (updateCurrentBlock cb b)) b = updateCurrentBlock cb b := by
  unfold updateCurrentBlock
  cases cb with
  | none => simp
  | some w =>
    simp only
    split
    · simp
    · next h => simp only [h, if_false]

theorem advance_advance (p : Parser) (tip : Nat) :
    advance (advance p tip) tip = advance p tip := by
  simp only [advance, updateCurrentBlock_idem]

theorem scanHeight_advance (p : Parser) (tip : Nat) :
    scanHeight (advance p tip) tip = scanHeight p tip := by
  simp only [scanHeight, advance, updateCurrentBlock_idem]

/-- The scanned height is the tip itself when the tip fits an `int64` and the watermark
is unset or not above it. -/
theorem scanHeight_eq_tip (p : Parser) (tip : Nat) (hlt : tip < 2 ^ 63)
    (hw : ∀ w ∈ p.currentBlock, w ≤ (tip : Int)) : scanHeight p tip = tip := by
  have hrange : wrapInt64 (tip : Int) = tip := by
    unfold wrapInt64
    omega
  unfold scanHeight updateCurrentBlock
  rw [int64OfUint64_of_lt tip hlt]
  cases hcb : p.currentBlock with
  | none => exact hrange
  | some w =>
    have hle := hw w (by simp [hcb])
    simp only
    split
    · exact hrange
    · have : w = tip := by omega
      rw [this]
      exact hrange

theorem scanBlocks_lt_two (hex : Address → String) (c : Client) (cur : Int) (a : String)
    (fuel : Nat) (hfuel : fuel < 2) :
    scanBlocks hex c cur a fuel (wrapInt64 cur) [] = none := by
  match fuel, hfuel with
  | 0, _ => rfl
  | 1, _ =>
    unfold scanBlocks
    simp only [ge_iff_le, le_refl, if_true]
    split <;> rfl

/-- What a returned poll for a subscribed address tells: the scanned height was not the
least `int64`, the fuel covered the loop, and the result is that of one pass. -/
theorem GetTransactions_inv_of_subscribed (hex : Address → String) (fuel : Nat)
    (c : Client) (p q : Parser) (address : String) (tip : Nat) (res : List Transaction)
    (htip : c.BlockNumber = .ok tip) (hsub : mapGet p.observers address = true)
    (h : GetTransactions hex fuel c p address = some (res, q)) :
    scanHeight p tip ≠ minInt64 ∧ 2 ≤ fuel ∧
      res = blockRecords hex c address (scanHeight p tip) ∧ q = advance p tip := by
  have hscan : scanHeight p tip ≠ minInt64 := by
    intro hmin
    rw [GetTransactions_none_of_min hex fuel c p address tip htip hsub hmin] at h
    exact Option.noConfusion h
  have hfuel : 2 ≤ fuel := by
    by_contra hlt
    have hnone : GetTransactions hex fuel c p address = none := by
      simp [GetTransactions, htip, hsub, scanBlocks_lt_two hex c _ address fuel (by omega)]
    rw [hnone] at h
    exact Option.noConfusion h
  obtain ⟨n, rfl⟩ : ∃ n, fuel = n + 2 := ⟨fuel - 2, by omega⟩
  rw [GetTransactions_of_subscribed hex n c p address tip htip hsub hscan] at h
  simp only [Option.some.injEq, Prod.mk.injEq] at h
  exact ⟨hscan, hfuel, h.1.symm, h.2.symm⟩

/-- C16 fails when the watermark is above the tip: from the watermark 200 (reached by a
poll at tip 200), two polls for the subscribed "0xA" get the same tip 100 and the same
block at height 100, but the block they scan is the one at 200, and when the ledger
holds a transfer there for the first poll and none for the second, the first poll
returns one record and the second returns nothing. -/
theorem repeated_poll_differs_above_tip :
    runOps demoHex 2 NewParser
        [.subscribe "0xA", .getTransactions (noBlockClient 200) "0xA"] =
        some { currentBlock := some 200, observers := [("0xA", true)] } ∧
      (twoBlockClient 100 100 [] 200 [transfer 1 2 5 17]).BlockNumber = .ok 100 ∧
      (twoBlockClient 100 100 [] 200 []).BlockNumber = .ok 100 ∧
      (twoBlockClient 100 100 [] 200 [transfer 1 2 5 17]).BlockByNumber 100 =
        (twoBlockClient 100 100 [] 200 []).BlockByNumber 100 ∧
      GetTransactions demoHex 2 (twoBlockClient 100 100 [] 200 [transfer 1 2 5 17])
          { currentBlock := some 200, observers := [("0xA", true)] } "0xA" =
        some ([{ From := ⟨1⟩, To := ⟨2⟩, Value := 5, Hash := ⟨17⟩, BlockNumber := 200 }],
          { currentBlock := some 200, observers := [("0xA", true)] }) ∧
      GetTransactions demoHex 2 (twoBlockClient 100 100 [] 200 [])
          { currentBlock := some 200, observers := [("0xA", true)] } "0xA" =
        some ([], { currentBlock := some 200, observers := [("0xA", true)] }) := by
  decide

/-- C16, amended: when two consecutive polls for the same address get the same tip and
the same answer for the block at the height they scan, the second poll returns the
sequence the first returned and leaves the parser, and so the watermark and
`GetCurrentBlock`, as the first left it; both polls return when the scanned height is
not the least `int64`; and the scanned height is the tip itself when the tip is below
`2 ^ 63` and the watermark before the first poll is unset or not above the tip. -/
theorem repeated_poll_same_result (hex : Address → String) (c1 c2 : Client)
    (p : Parser) (A : String) (tip : Nat)
    (h1 : c1.BlockNumber = .ok tip) (h2 : c2.BlockNumber = .ok tip)
    (hblock : c2.BlockByNumber (scanHeight p tip) = c1.BlockByNumber (scanHeight p tip)) :
    (∀ fuel res q, GetTransactions hex fuel c1 p A = some (res, q) →
        ∃ q2, GetTransactions hex fuel c2 q A = some (res, q2) ∧ q2 = q ∧
          watermark q2 = watermark q ∧ GetCurrentBlock q2 = GetCurrentBlock q) ∧
      (scanHeight p tip ≠ minInt64 → ∀ fuel, ∃ res q,
        GetTransactions hex (fuel + 2) c1 p A = some (res, q) ∧
          GetTransactions hex (fuel + 2) c2 q A = some (res, q)) ∧
      (tip < 2 ^ 63 → (∀ w ∈ p.currentBlock, w ≤ (tip : Int)) →
        scanHeight p tip = tip) := by
  have hsame : ∀ fuel res q, GetTransactions hex fuel c1 p A = some (res, q) →
      GetTransactions hex fuel c2 q A = some (res, q) := by
    intro fuel res q hfirst
    cases hsub : mapGet p.observers A with
    | false =>
      rw [GetTransactions_of_unsubscribed hex fuel c1 p A tip h1 hsub] at hfirst
      simp only [Option.some.injEq, Prod.mk.injEq] at hfirst
      obtain ⟨rfl, rfl⟩ := hfirst
      rw [GetTransactions_of_unsubscribed hex fuel c2 (advance p tip) A tip h2 hsub,
        advance_advance]
    | true =>
      obtain ⟨hscan, hfuel, rfl, rfl⟩ :=
        GetTransactions_inv_of_subscribed hex fuel c1 p q A tip res h1 hsub hfirst
      obtain ⟨n, rfl⟩ : ∃ n, fuel = n + 2 := ⟨fuel - 2, by omega⟩
      rw [GetTransactions_of_subscribed hex n c2 (advance p tip) A tip h2 hsub
        (by rw [scanHeight_advance]; exact hscan), scanHeight_advance, advance_advance]
      simp only [blockRecords, hblock]
  refine ⟨fun fuel res q hfirst => ⟨q, hsame fuel res q hfirst, rfl, rfl, rfl⟩, ?_,
    fun hlt hw => scanHeight_eq_tip p tip hlt hw⟩
  intro hscan fuel
  obtain ⟨res, q, hfirst⟩ := GetTransactions_returns hex fuel c1 p A (fun t ht => by
    rw [h1] at ht
    simp only [Except.ok.injEq] at ht
    rw [← ht]
    exact hscan)
  exact ⟨res, q, hfirst, hsame _ res q hfirst⟩

/-- C16, amended, at the design's scenario polled twice: "0xA" subscribed, tip 100, block
100 holding one transfer from "0xA" to "0xB"; the scanned height is 100. -/
theorem repeated_poll_same_result_witness :
    scanHeight (subscribed ["0xA"]) 100 = 100 ∧
      ∃ res q, GetTransactions demoHex 2 (demoClient 100 100 [transfer 1 2 5 17])
          (subscribed ["0xA"]) "0xA" = some (res, q) ∧
        GetTransactions demoHex 2 (demoClient 100 100 [transfer 1 2 5 17]) q "0xA" =
          some (res, q) :=
  ⟨(repeated_poll_same_result demoHex (demoClient 100 100 [transfer 1 2 5 17])
      (demoClient 100 100 [transfer 1 2 5 17]) (subscribed ["0xA"]) "0xA" 100 rfl rfl
      rfl).2.2 (by decide) (by decide),
    (repeated_poll_same_result demoHex (demoClient 100 100 [transfer 1 2 5 17])
      (demoClient 100 100 [transfer 1 2 5 17]) (subscribed ["0xA"]) "0xA" 100 rfl rfl
      rfl).2.1 (by decide) 0⟩

/-! ## What Subscribe does with the text of an address -/

theorem mapHas_mapSet_of_ne (m : List (String × Bool)) (k a : String) (v : Bool)
    (h : a ≠ k) : mapHas (mapSet m k v) a = mapHas m a := by
  simp only [mapHas, lookup_mapSet_of_ne m k a v h]

/-- C14 fails: the string "not-an-address" is not the text of an address, and `Subscribe`
on a fresh parser returns `true` for it and stores it. -/
theorem Subscribe_stores_invalid_text :
    IsHexAddress "not-an-address" = false ∧
      Subscribe NewParser "not-an-address" =
        (true, { currentBlock := none, observers := [("not-an-address", true)] }) := by
  decide

/-- C14, amended: `Subscribe` does not look at the syntax of its argument.  For every
string, the text of an address or not, it returns `true` and stores the string as given
when the string is not yet in the subscription set, and returns `false` and leaves the
parser as it was when the string is in the set. -/
theorem Subscribe_any_string (p : Parser) (a : String) :
    (mapHas p.observers a = false →
        (Subscribe p a).1 = true ∧
          (Subscribe p a).2.observers = mapSet p.observers a true ∧
          mapHas (Subscribe p a).2.observers a = true) ∧
      (mapHas p.observers a = true → Subscribe p a = (false, p)) := by
  refine ⟨fun h => ?_, Subscribe_of_present p a⟩
  rw [Subscribe_of_absent p a h]
  exact ⟨rfl, rfl, mapHas_mapSet_self _ _ _⟩

/-- C14, amended, at the string "not-an-address", first on a fresh parser and then on the
parser that holds it. -/
theorem Subscribe_any_string_witness :
    IsHexAddress "not-an-address" = false ∧
      ((Subscribe NewParser "not-an-address").1 = true ∧
        (Subscribe NewParser "not-an-address").2.observers =
          mapSet NewParser.observers "not-an-address" true ∧
        mapHas (Subscribe NewParser "not-an-address").2.observers "not-an-address" = true) ∧
      Subscribe (subscribed ["not-an-address"]) "not-an-address" =
        (false, subscribed ["not-an-address"]) :=
  ⟨by decide, (Subscribe_any_string NewParser "not-an-address").1 (by decide),
    (Subscribe_any_string (subscribed ["not-an-address"]) "not-an-address").2 (by decide)⟩

/-- C15 fails: two texts of one address that differ in the case of their digits are two
subscriptions; `Subscribe` of the second after the first returns `true`. -/
theorem Subscribe_other_case_is_new :
    addressOfText "0x3fC91A3afd70395Cd496C647d5a6CC9D4B2b7FAD" =
        addressOfText "0x3fc91a3afd70395cd496c647d5a6cc9d4b2b7fad" ∧
      IsHexAddress "0x3fC91A3afd70395Cd496C647d5a6CC9D4B2b7FAD" = true ∧
      IsHexAddress "0x3fc91a3afd70395cd496c647d5a6cc9d4b2b7fad" = true ∧
      (Subscribe (Subscribe NewParser "0x3fC91A3afd70395Cd496C647d5a6CC9D4B2b7FAD").2
        "0x3fc91a3afd70395cd496c647d5a6cc9d4b2b7fad").1 = true := by
  decide

/-- C15, amended: `Subscribe` compares its argument as it is written.  For a string `s2`
that was not in the subscription set before, `Subscribe s2` after `Subscribe s1` returns
`false` if and only if `s2` is the very string `s1`. -/
theorem Subscribe_twice_false_iff_same_string (p : Parser) (s1 s2 : String)
    (h : mapHas p.observers s2 = false) :
    (Subscribe (Subscribe p s1).2 s2).1 = false ↔ s2 = s1 := by
  constructor
  · intro hfalse
    by_contra hne
    have hstill : mapHas (Subscribe p s1).2.observers s2 = false := by
      unfold Subscribe
      split
      · simp only
        rw [mapHas_mapSet_of_ne _ _ _ _ hne]
        exact h
      · exact h
    rw [Subscribe_of_absent _ s2 hstill] at hfalse
    exact Bool.noConfusion hfalse
  · rintro rfl
    have hin : mapHas (Subscribe p s2).2.observers s2 = true := by
      rw [Subscribe_of_absent p s2 h]
      exact mapHas_mapSet_self _ _ _
    rw [Subscribe_of_present _ s2 hin]

/-- C15, amended, at the two spellings of one address: the second `Subscribe` does not
return `false`, the strings being different. -/
theorem Subscribe_twice_false_iff_same_string_witness :
    mapHas NewParser.observers "0x3fc91a3afd70395cd496c647d5a6cc9d4b2b7fad" = false ∧
      ((Subscribe (Subscribe NewParser "0x3fC91A3afd70395Cd496C647d5a6CC9D4B2b7FAD").2
          "0x3fc91a3afd70395cd496c647d5a6cc9d4b2b7fad").1 = false ↔
        "0x3fc91a3afd70395cd496c647d5a6cc9d4b2b7fad" =
          "0x3fC91A3afd70395Cd496C647d5a6CC9D4B2b7FAD") :=
  ⟨by decide,
    Subscribe_twice_false_iff_same_string NewParser
      "0x3fC91A3afd70395Cd496C647d5a6CC9D4B2b7FAD"
      "0x3fc91a3afd70395cd496c647d5a6cc9d4b2b7fad" (by decide)⟩

/-! ## The sentinel of GetCurrentBlock -/

theorem GetCurrentBlock_of_unset (p : Parser) (h : p.currentBlock = none) :
    GetCurrentBlock p = -1 := by
  simp [GetCurrentBlock, h]

theorem advance_nonneg_of_small_tip (p : Parser) (tip : Nat) (hwf : p.WF)
    (hlt : tip < 2 ^ 63) :
    ∃ w, (advance p tip).currentBlock = some w ∧ 0 ≤ w ∧ w ≤ maxInt64 := by
  refine ⟨_, rfl, ?_, (updateCurrentBlock_range _ _ hwf.2 (int64OfUint64_range tip)).2⟩
  rw [int64OfUint64_of_lt tip hlt]
  unfold updateCurrentBlock
  cases p.currentBlock with
  | none => exact Int.ofNat_nonneg tip
  | some w =>
    simp only
    split <;> omega

theorem advance_keeps_nonneg (p : Parser) (tip : Nat)
    (h : ∃ w, p.currentBlock = some w ∧ 0 ≤ w ∧ w ≤ maxInt64) :
    ∃ w, (advance p tip).currentBlock = some w ∧ 0 ≤ w ∧ w ≤ maxInt64 := by
  obtain ⟨w, hw, h0, hmax⟩ := h
  have hr := int64OfUint64_range tip
  refine ⟨_, rfl, ?_⟩
  rw [hw]
  unfold updateCurrentBlock
  simp only
  split
  · exact ⟨by omega, hr.2⟩
  · exact ⟨h0, hmax⟩

/-- Once the watermark is a non-negative `int64`, it stays one through every sequence of
calls, so `GetCurrentBlock` does not return the sentinel again. -/
theorem runOps_keeps_nonneg (hex : Address → String) (fuel : Nat) (ops : List Op)
    (p q : Parser) (h : ∃ w, p.currentBlock = some w ∧ 0 ≤ w ∧ w ≤ maxInt64)
    (hq : runOps hex fuel p ops = some q) :
    (∃ w, q.currentBlock = some w ∧ 0 ≤ w ∧ w ≤ maxInt64) ∧ 0 ≤ GetCurrentBlock q := by
  induction ops generalizing p with
  | nil =>
    simp only [runOps, Option.some.injEq] at hq
    subst hq
    refine ⟨h, ?_⟩
    obtain ⟨w, hw, h0, hmax⟩ := h
    simp only [GetCurrentBlock, hw]
    rw [wrapInt64_of_range w (by unfold minInt64; omega) hmax]
    exact h0
  | cons op ops ih =>
    simp only [runOps] at hq
    split at hq
    · simp at hq
    · next p' hp' =>
      refine ih p' ?_ hq
      cases op with
      | subscribe b =>
        simp only [stepOp, Option.some.injEq] at hp'
        subst hp'
        rw [Subscribe_currentBlock]
        exact h
      | getTransactions c b =>
        simp only [stepOp, Option.map_eq_some'] at hp'
        obtain ⟨⟨res, q'⟩, hres, rfl⟩ := hp'
        rcases GetTransactions_state hex fuel c p q' b res hres with
          ⟨_, _, rfl⟩ | ⟨tip, _, rfl⟩
        · exact h
        · exact advance_keeps_nonneg p tip h
      | getCurrentBlock =>
        simp only [stepOp, Option.some.injEq] at hp'
        subst hp'
        exact h

/-- C17 fails at the tip `2 ^ 64 - 1`: a fresh parser reports the sentinel `-1`, the poll
succeeds and sets the watermark, and the watermark it sets is `int64(2 ^ 64 - 1) = -1`,
so `GetCurrentBlock` returns the sentinel again although the watermark is set. -/
theorem GetCurrentBlock_sentinel_after_tip_max :
    GetCurrentBlock NewParser = -1 ∧
      (demoClient (2 ^ 64 - 1) 0 []).BlockNumber = .ok (2 ^ 64 - 1) ∧
      GetTransactions demoHex 2 (demoClient (2 ^ 64 - 1) 0 []) NewParser "0xA" =
        some ([], { currentBlock := some (-1), observers := [] }) ∧
      watermark { currentBlock := some (-1), observers := [] } ≠ none ∧
      GetCurrentBlock { currentBlock := some (-1), observers := [] } = -1 := by
  decide

/-! ## What each operation leaves alone -/

/-- C18: `Subscribe` leaves the watermark and what `GetCurrentBlock` returns unchanged;
`GetCurrentBlock` leaves the parser unchanged; every poll that returns leaves the
subscription set unchanged, and a poll returns whenever its scanned height is not the
least `int64`; and no sequence of calls removes a subscribed address. -/
theorem operations_frame (hex : Address → String) (p : Parser) (a : String) :
    (watermark (Subscribe p a).2 = watermark p ∧
        GetCurrentBlock (Subscribe p a).2 = GetCurrentBlock p) ∧
      (∀ fuel, stepOp hex fuel p .getCurrentBlock = some p) ∧
      (∀ fuel c res q, GetTransactions hex fuel c p a = some (res, q) →
        q.observers = p.observers) ∧
      (∀ fuel c, (∀ tip, c.BlockNumber = .ok tip → scanHeight p tip ≠ minInt64) →
        ∃ res q, GetTransactions hex (fuel + 2) c p a = some (res, q) ∧
          q.observers = p.observers) ∧
      (∀ fuel ops q b, mapHas p.observers b = true → runOps hex fuel p ops = some q →
        mapHas q.observers b = true) := by
  refine ⟨⟨Subscribe_currentBlock p a, ?_⟩, fun _ => rfl, ?_, ?_, ?_⟩
  · simp only [GetCurrentBlock, Subscribe_currentBlock]
  · intro fuel c res q h
    exact GetTransactions_observers hex fuel c p q a res h
  · intro fuel c hscan
    obtain ⟨res, q, h⟩ := GetTransactions_returns hex fuel c p a hscan
    exact ⟨res, q, h, GetTransactions_observers hex _ c p q a res h⟩
  · intro fuel ops q b hb hq
    exact runOps_keeps hex fuel ops p q b hb hq

/-- C18 at a parser with "0xA" subscribed: a poll at tip 100 returns and keeps the set, and
after the calls of `demoCalls` "0xA" is still subscribed. -/
theorem operations_frame_witness :
    (∃ res q, GetTransactions demoHex 2 (demoClient 100 100 [transfer 1 2 5 17])
        (subscribed ["0xA"]) "0xA" = some (res, q) ∧
        q.observers = (subscribed ["0xA"]).observers) ∧
      mapHas ({ currentBlock := some 100, observers := [("0xA", true), ("0xB", true)] } :
        Parser).observers "0xA" = true :=
  ⟨(operations_frame demoHex (subscribed ["0xA"]) "0xA").2.2.2.1 0
      (demoClient 100 100 [transfer 1 2 5 17])
      (fun tip h => by
        have h100 : tip = 100 := by
          simp only [demoClient, Except.ok.injEq] at h
          exact h.symm
        subst h100
        decide),
    (operations_frame demoHex (subscribed ["0xA"]) "0xA").2.2.2.2 2 demoCalls
      { currentBlock := some 100, observers := [("0xA", true), ("0xB", true)] } "0xA"
      (by decide) (by decide)⟩

/-! ## Matching against the string as it was passed -/

theorem scanBlocks_forall (hex : Address → String) (c : Client) (cur : Int) (a : String)
    (P : Transaction → Prop)
    (hP : ∀ h b rec, c.BlockByNumber h = .ok b →
      rec ∈ matchedRecords hex a h b.Transactions → P rec)
    (fuel : Nat) (blockI : Int) (acc res : List Transaction)
    (hacc : ∀ rec ∈ acc, P rec)
    (h : scanBlocks hex c cur a fuel blockI acc = some res) : ∀ rec ∈ res, P rec := by
  induction fuel generalizing blockI acc with
  | zero => simp [scanBlocks] at h
  | succ n ih =>
    unfold scanBlocks at h
    split at h
    · split at h
      · exact ih _ _ hacc h
      · next block hb =>
        refine ih _ _ ?_ h
        intro rec hrec
        rw [scanTransactions_eq, List.mem_append] at hrec
        rcases hrec with hrec | hrec
        · exact hacc rec hrec
        · exact hP blockI block rec hb hrec
    · simp only [Option.some.injEq] at h
      subst h
      exact hacc

/-- Every record of a result has a sender or a receiver that renders to the string the
poll was called with. -/
theorem GetTransactions_matches (hex : Address → String) (fuel : Nat) (c : Client)
    (p q : Parser) (address : String) (res : List Transaction)
    (h : GetTransactions hex fuel c p address = some (res, q)) :
    ∀ rec ∈ res, hex rec.From = address ∨ hex rec.To = address := by
  unfold GetTransactions at h
  split at h
  · simp only [Option.some.injEq, Prod.mk.injEq] at h
    rw [← h.1]
    simp
  · simp only at h
    split at h
    · simp only [Option.some.injEq, Prod.mk.injEq] at h
      rw [← h.1]
      simp
    · simp only [Option.map_eq_some', Prod.mk.injEq] at h
      obtain ⟨ts, hts, rfl, _⟩ := h
      refine scanBlocks_forall hex c _ address _ ?_ fuel _ [] ts (by simp) hts
      intro h b rec _ hrec
      rw [mem_matchedRecords] at hrec
      obtain ⟨tx, s, r, _, _, _, hm, rfl⟩ := hrec
      exact hm

/-- The function `GetTransactions` compares the rendering `hex` of the sender and of the receiver
with the string it is called with, as written.  For a string `a` that is the rendering
of no address, subscribed or not, every result is empty, for every parser and ledger;
and the poll returns the empty sequence whenever its scanned height is not the least
`int64`. -/
theorem unrendered_string_matches_nothing (hex : Address → String) (c : Client)
    (p : Parser) (a : String) (hraw : ∀ x, hex x ≠ a) :
    (∀ fuel res q, GetTransactions hex fuel c p a = some (res, q) → res = []) ∧
      (∀ fuel, (∀ tip, c.BlockNumber = .ok tip → scanHeight p tip ≠ minInt64) →
        ∃ q, GetTransactions hex (fuel + 2) c p a = some ([], q)) := by
  have hempty : ∀ fuel res q, GetTransactions hex fuel c p a = some (res, q) → res = [] := by
    intro fuel res q h
    rw [List.eq_nil_iff_forall_not_mem]
    intro rec hrec
    rcases GetTransactions_matches hex fuel c p q a res h rec hrec with hm | hm
    · exact hraw _ hm
    · exact hraw _ hm
  refine ⟨hempty, ?_⟩
  intro fuel hscan
  obtain ⟨res, q, h⟩ := GetTransactions_returns hex fuel c p a hscan
  have hnil := hempty _ res q h
  subst hnil
  exact ⟨q, h⟩

/-- At the subscribed string "0xa", the lower-case form of the rendering "0xA": the
block holds a transfer from "0xA" and one to "0xA", and the poll for "0xa" returns
nothing. -/
theorem unrendered_string_matches_nothing_witness :
    mapHas (subscribed ["0xa"]).observers "0xa" = true ∧ demoHex ⟨1⟩ = "0xA" ∧
      ∃ q, GetTransactions demoHex 2
          (demoClient 100 100 [transfer 1 2 5 17, transfer 3 1 8 18])
          (subscribed ["0xa"]) "0xa" = some ([], q) :=
  ⟨by decide, by decide,
    (unrendered_string_matches_nothing demoHex
      (demoClient 100 100 [transfer 1 2 5 17, transfer 3 1 8 18]) (subscribed ["0xa"]) "0xa"
      (fun x => by unfold demoHex; split_ifs <;> decide)).2 0
      (fun tip h => by
        have h100 : tip = 100 := by
          simp only [demoClient, Except.ok.injEq] at h
          exact h.symm
        subst h100
        decide)⟩

/-! ## Polls that scan the least int64 -/

/-- C4: at the tip `2 ^ 63` the poll of the design's scenario has no result.  "0xA" is
subscribed on a fresh parser, the tip fetch answers `2 ^ 63`, every block fetch succeeds
with a block holding one transfer of 5 from "0xA" to "0xB", so that the claimed result
is one record; the scanned height is the least `int64` and `GetTransactions` does not
return, whatever the fuel. -/
theorem scenario_poll_has_no_result_at_tip_two_pow_63 :
    mapHas (subscribed ["0xA"]).observers "0xA" = true ∧
      (anyBlockClient (2 ^ 63) [transfer 1 2 5 17]).BlockNumber = .ok (2 ^ 63) ∧
      (anyBlockClient (2 ^ 63) [transfer 1 2 5 17]).BlockByNumber
          (scanHeight (subscribed ["0xA"]) (2 ^ 63)) =
        .ok { Transactions := [transfer 1 2 5 17] } ∧
      matchedRecords demoHex "0xA" (scanHeight (subscribed ["0xA"]) (2 ^ 63))
          [transfer 1 2 5 17] =
        [{ From := ⟨1⟩, To := ⟨2⟩, Value := 5, Hash := ⟨17⟩, BlockNumber := -(2 ^ 63) }] ∧
      ∀ fuel, GetTransactions demoHex fuel (anyBlockClient (2 ^ 63) [transfer 1 2 5 17])
        (subscribed ["0xA"]) "0xA" = none :=
  ⟨by decide, rfl, rfl, by decide,
    fun fuel => GetTransactions_none_of_min demoHex fuel
      (anyBlockClient (2 ^ 63) [transfer 1 2 5 17]) (subscribed ["0xA"]) "0xA" (2 ^ 63) rfl
      (by decide) (by decide)⟩

/-- C6: at the tip `2 ^ 63` a block holding only a contract creation does not yield the
empty result.  "0xC" is subscribed on a fresh parser, the tip fetch answers `2 ^ 63`,
every block holds one contract creation sent by "0xC"; `GetTransactions` does not
return, whatever the fuel. -/
theorem creation_block_has_no_result_at_tip_two_pow_63 :
    mapHas (subscribed ["0xC"]).observers "0xC" = true ∧
      (creation 3 0 21).To = none ∧
      (anyBlockClient (2 ^ 63) [creation 3 0 21]).BlockByNumber
          (scanHeight (subscribed ["0xC"]) (2 ^ 63)) =
        .ok { Transactions := [creation 3 0 21] } ∧
      ∀ fuel, GetTransactions demoHex fuel (anyBlockClient (2 ^ 63) [creation 3 0 21])
        (subscribed ["0xC"]) "0xC" = none :=
  ⟨by decide, rfl, rfl,
    fun fuel => GetTransactions_none_of_min demoHex fuel
      (anyBlockClient (2 ^ 63) [creation 3 0 21]) (subscribed ["0xC"]) "0xC" (2 ^ 63) rfl
      (by decide) (by decide)⟩

/-- C12: at the tip `2 ^ 63` a failing block fetch does not end in the empty sequence.
"0xB" is subscribed on a fresh parser, the tip fetch answers `2 ^ 63` and the fetch of
the block to scan fails, as every block fetch does; `GetTransactions` does not return,
whatever the fuel. -/
theorem block_failure_has_no_result_at_tip_two_pow_63 :
    mapHas (subscribed ["0xB"]).observers "0xB" = true ∧
      (noBlockClient (2 ^ 63)).BlockNumber = .ok (2 ^ 63) ∧
      (noBlockClient (2 ^ 63)).BlockByNumber (scanHeight (subscribed ["0xB"]) (2 ^ 63)) =
        .error "not found" ∧
      ∀ fuel, GetTransactions demoHex fuel (noBlockClient (2 ^ 63)) (subscribed ["0xB"])
        "0xB" = none :=
  ⟨by decide, rfl, rfl,
    fun fuel => GetTransactions_none_of_min demoHex fuel (noBlockClient (2 ^ 63))
      (subscribed ["0xB"]) "0xB" (2 ^ 63) rfl (by decide) (by decide)⟩

/-- C19: at the tip `2 ^ 63` the poll for a subscribed string that renders no address
does not return the empty sequence.  "0xa" is subscribed on a fresh parser and is the
rendering of no address, the tip fetch answers `2 ^ 63`, every block holds a transfer
from "0xA"; `GetTransactions` does not return, whatever the fuel. -/
theorem unrendered_string_has_no_result_at_tip_two_pow_63 :
    mapHas (subscribed ["0xa"]).observers "0xa" = true ∧
      (∀ x, demoHex x ≠ "0xa") ∧
      (anyBlockClient (2 ^ 63) [transfer 1 2 5 17]).BlockNumber = .ok (2 ^ 63) ∧
      ∀ fuel, GetTransactions demoHex fuel (anyBlockClient (2 ^ 63) [transfer 1 2 5 17])
        (subscribed ["0xa"]) "0xa" = none :=
  ⟨by decide, fun x => by unfold demoHex; split_ifs <;> decide, rfl,
    fun fuel => GetTransactions_none_of_min demoHex fuel
      (anyBlockClient (2 ^ 63) [transfer 1 2 5 17]) (subscribed ["0xa"]) "0xa" (2 ^ 63) rfl
      (by decide) (by decide)⟩

end EthParser
